import Mathlib

set_option maxHeartbeats 1600000

/-!
Verification development for the ormantic predicate/query compiler.

The Python values that flow through the predicate algebra (literals, field
proxies, lists, tuples, dicts and `Predicate` nodes) are embedded as one
inductive type `PyObj`.  Operators are identified by their string token
(`"$eq"`, `"$and"`, ...), matching the source where `Operator.__eq__` and
`Operator.__hash__` delegate to the token string.
-/

/-- Exception kinds raised by the embedded code.  `valueError` covers the
plain `ValueError`/`TypeError`-style failures the source raises directly;
the named variants correspond to the classes in `ormantic/errors.py`. -/
inductive Err where
  | predicateEncodeError
  | keyError
  | indexError
  | valueError
  | typeError
  | attributeError
  | assertionError
  | operatorUnregisteredError
  | fieldNotFoundError
  | autoIncrementFieldExists
deriving DecidableEq, Repr

/-- Embedding of the Python values handled by `ormantic/express.py`:
ints, strings, `None`, lists, tuples, string-keyed dicts (association
lists in insertion order), `Predicate` nodes (operator token plus ordered
operand list) and `FieldProxy` values (owning table name, column name). -/
inductive PyObj where
  | vint : Int → PyObj
  | vstr : String → PyObj
  | vnone : PyObj
  | vlist : List PyObj → PyObj
  | vtuple : List PyObj → PyObj
  | vdict : List (String × PyObj) → PyObj
  | pred : String → List PyObj → PyObj
  | field : String → String → PyObj

/-- The tokens interned in the global `Operator` registry once
`ormantic.operators` and a dialect module have been imported:
`ArithmeticOperator` (6), `BooleanOperator` (9), `LogicOperator`
(`$and`, `$or`) and the dialect extensions `$like`, `$not_like`. -/
def operatorTokens : List String :=
  ["$add", "$sub", "$mul", "$truediv", "$floordiv", "$mod",
   "$gt", "$gte", "$lt", "$lte", "$eq", "$ne", "$in", "$nin", "$regex",
   "$and", "$or", "$like", "$not_like"]

/-- `token in Operator`: membership in the interned registry
(modelled at its module-initialization state). -/
def isOp (t : String) : Bool := operatorTokens.contains t

/-- `token.startswith(OPERATOR_PREFIX)` with `OPERATOR_PREFIX = "$"`. -/
def startsWithDollar (k : String) : Bool :=
  match k.toList with
  | c :: _ => c = '$'
  | [] => false

/-- The arithmetic operator group `ArithmeticOperator`. -/
def arithmeticOperatorTokens : List String :=
  ["$add", "$sub", "$mul", "$truediv", "$floordiv", "$mod"]

/-- The logic operator group `LogicOperator` as exercised by
`ormantic/express.py`, the dialect compilers (`LogicOperator.eq`,
`LogicOperator.gt`, ..., `expr.operator in LogicOperator`) and pinned by
`tests/test_orm_operator.py` (`LogicOperator.eq in LogicOperator`): the
comparison operators together with `$and`/`$or` and the dialect-registered
`$like`/`$not_like`. -/
def logicOperatorTokens : List String :=
  ["$gt", "$gte", "$lt", "$lte", "$eq", "$ne", "$in", "$nin", "$regex",
   "$and", "$or", "$like", "$not_like"]

/-- One step of the operand normalization in `Predicate.__init__`
(src/ormantic/express.py:176-185): an operand that is itself a Predicate
with the same operator and more than one value contributes its value list,
every other operand contributes itself. -/
def flattenValues (op : String) : List PyObj → List PyObj
  | [] => []
  | i :: rest =>
    (match i with
      | .pred op2 ws => if op2 = op ∧ 1 < ws.length then ws else [i]
      | x => [x]) ++ flattenValues op rest

/-- `Predicate(operator, values)` — the constructor with the
associativity-flattening loop of `Predicate.__init__`. -/
def mkPred (op : String) (vs : List PyObj) : PyObj :=
  .pred op (flattenValues op vs)

/-- `Func.and_`. -/
def Func.and_ (elements : List PyObj) : PyObj := mkPred "$and" elements

/-- `Func.or_`. -/
def Func.or_ (elements : List PyObj) : PyObj := mkPred "$or" elements

/-- `Func.eq`. -/
def Func.eq (e v : PyObj) : PyObj := mkPred "$eq" [e, v]

/-- `Func.gt`. -/
def Func.gt (e v : PyObj) : PyObj := mkPred "$gt" [e, v]

/-- `Func.lt`. -/
def Func.lt (e v : PyObj) : PyObj := mkPred "$lt" [e, v]

/-- `Predicate.dict` on operand lists: a Predicate operand is serialized
recursively, every other operand is kept as-is. -/
def dictValues : List PyObj → List PyObj
  | [] => []
  | v :: rest =>
    (match v with
      | .pred o w => .vdict [(o, .vlist (dictValues w))]
      | x => x) :: dictValues rest

/-- `Predicate.dict` (src/ormantic/express.py:187-188): a one-key dict
from the operator token to the list of serialized operands.  On
non-Predicate values it is the identity (the method only exists on
Predicate). -/
def predicateDict : PyObj → PyObj
  | .pred op vs => .vdict [(op, .vlist (dictValues vs))]
  | x => x

/-- `all(i in Operator for i in obj)` over the keys of a dict. -/
def allKeysOps (kvs : List (String × PyObj)) : Bool :=
  kvs.all fun kv => isOp kv.1

mutual
/-- `check_predicate` (src/ormantic/express.py:194-200): a dict whose keys
are all registered operator tokens, or whose values are all themselves
predicate-shaped, is predicate-shaped; nothing else is. -/
def check_predicate : PyObj → Bool
  | .vdict kvs => allKeysOps kvs || allValuesCheck kvs
  | _ => false

/-- `all(check_predicate(v) for v in obj.values())`. -/
def allValuesCheck : List (String × PyObj) → Bool
  | [] => true
  | (_, v) :: rest => check_predicate v && allValuesCheck rest
end

mutual
/-- Termination measure for the encoder: a weight on values in which a
dict pair is substantially heavier than the wrapper nodes the encoder's
field-distribution step builds around the pair's value. -/
def wt : PyObj → Nat
  | .vint _ => 1
  | .vstr _ => 1
  | .vnone => 1
  | .field _ _ => 1
  | .vlist xs => 1 + wtList xs
  | .vtuple xs => 1 + wtList xs
  | .vdict kvs => 1 + wtPairs kvs
  | .pred _ vs => 1 + wtList vs

/-- Weight of a list of values. -/
def wtList : List PyObj → Nat
  | [] => 0
  | x :: xs => 1 + wt x + wtList xs

/-- Weight of a list of dict pairs. -/
def wtPairs : List (String × PyObj) → Nat
  | [] => 0
  | kv :: rest => 8 + wt kv.2 + wtPairs rest
end

/-- Python `tuple(x)` on the values the encoder can meet: a tuple is
returned unchanged, a list is copied into a tuple, a string yields the
tuple of its one-character strings, a dict yields the tuple of its keys;
ints, `None`, fields and Predicate values are not iterable. -/
def pyTuple : PyObj → Except Err PyObj
  | .vtuple xs => .ok (.vtuple xs)
  | .vlist xs => .ok (.vtuple xs)
  | .vstr s => .ok (.vtuple (s.toList.map fun c => .vstr (String.mk [c])))
  | .vdict kvs => .ok (.vtuple (kvs.map fun kv => .vstr kv.1))
  | _ => .error .typeError

/-- The shared tail of `encode`'s dict branch:
`express[0] if len(express) == 1 else Func.and_(*express)`; indexing an
empty accumulator raises `IndexError`. -/
def finalizeExpress : List PyObj → Except Err PyObj
  | [] => .error .indexError
  | [e] => .ok e
  | es => .ok (mkPred "$and" es)

mutual
/-- `encode` (src/ormantic/express.py:207-258).  A Predicate is returned
unchanged; a list or tuple encodes its members and joins them with
`Func.and_`; a dict with several items is re-encoded as the list of its
single-item dicts (`encode(list(map(dict, zip(obj.items()))))`), a
single-item dict is handled by `encodeDict1`, an empty dict fails with
`KeyError` (`obj.popitem()`); anything else raises `PredicateEncodeError`. -/
def encode : PyObj → Except Err PyObj
  | .pred op vs => .ok (.pred op vs)
  | .vlist xs => do
      let es ← encodeList xs
      .ok (Func.and_ es)
  | .vtuple xs => do
      let es ← encodeList xs
      .ok (Func.and_ es)
  | .vdict [] => .error .keyError
  | .vdict [(k, v)] => encodeDict1 k v
  | .vdict kvs => do
      let es ← encodePairs kvs
      .ok (Func.and_ es)
  | _ => .error .predicateEncodeError
termination_by obj => wt obj
decreasing_by all_goals first
  | (simp [wt, wtList, wtPairs]; omega)
  | simp [wt, wtList, wtPairs]
  | omega

/-- `[encode(i) for i in xs]`. -/
def encodeList : List PyObj → Except Err (List PyObj)
  | [] => .ok []
  | x :: xs => do
      let e ← encode x
      let es ← encodeList xs
      .ok (e :: es)
termination_by l => wtList l
decreasing_by all_goals first
  | (simp [wt, wtList, wtPairs]; omega)
  | simp [wt, wtList, wtPairs]
  | omega

/-- The single-item dicts of a several-item dict, encoded in order. -/
def encodePairs : List (String × PyObj) → Except Err (List PyObj)
  | [] => .ok []
  | (k, v) :: rest => do
      let e ← encodeDict1 k v
      let es ← encodePairs rest
      .ok (e :: es)
termination_by l => wtPairs l
decreasing_by all_goals first
  | (simp [wt, wtList, wtPairs]; omega)
  | simp [wt, wtList, wtPairs]
  | omega

/-- The `field, value = obj.popitem()` body of `encode`'s dict branch.
`Operator.validate(field)` interns and returns an operator for every
`"$"`-prefixed token and `None` otherwise, so the operator branches fire
exactly when the key starts with `"$"` (split below into one helper per
branch of the source's `if`/`elif` chain).  A non-operator key with a
predicate-shaped dict value distributes the field name into each item
(`encode(\x7bk: [field, v]\x7d)`); otherwise the pair is an implicit
equality `Predicate(eq, [field, value])`. -/
def encodeDict1 (k : String) (value : PyObj) : Except Err PyObj :=
  if startsWithDollar k then encodeOpKey k value
  else if check_predicate value then
    match value with
    | .vdict kvs => do
        let es ← encodeDistrib k kvs
        finalizeExpress es
    | _ => .error .typeError
  else
    finalizeExpress [mkPred "$eq" [.vstr k, value]]
termination_by 7 + wt value
decreasing_by all_goals first
  | (simp [wt, wtList, wtPairs]; omega)
  | simp [wt, wtList, wtPairs]
  | omega

/-- The `if op is ...` chain over the recognized operator key. -/
def encodeOpKey (k : String) (value : PyObj) : Except Err PyObj :=
  if k = "$and" then encodeAndKey value
  else if k = "$or" then encodeOrKey value
  else if k = "$in" ∨ k = "$nin" then encodeInKey k value
  else if arithmeticOperatorTokens.contains k then encodeArithKey k value
  else encodeCmpKey k value
termination_by 6 + wt value
decreasing_by all_goals first
  | (simp [wt, wtList, wtPairs]; omega)
  | simp [wt, wtList, wtPairs]
  | omega

/-- `op is LogicOperator.AND`:
`express.extend(encode(i) for i in value)`.  Iterating a nonempty dict
yields string keys whose encoding raises `PredicateEncodeError`;
non-iterable values raise `TypeError`. -/
def encodeAndKey (value : PyObj) : Except Err PyObj :=
  match value with
  | .vlist xs => do
      let es ← encodeList xs
      finalizeExpress es
  | .vtuple xs => do
      let es ← encodeList xs
      finalizeExpress es
  | .vdict [] => finalizeExpress []
  | .vdict _ => .error .predicateEncodeError
  | .vstr s => if s = "" then finalizeExpress [] else .error .predicateEncodeError
  | _ => .error .typeError
termination_by 5 + wt value
decreasing_by all_goals first
  | (simp [wt, wtList, wtPairs]; omega)
  | simp [wt, wtList, wtPairs]
  | omega

/-- `op is LogicOperator.OR`:
`express.append(Func.or_(*[encode(i) for i in value]))`. -/
def encodeOrKey (value : PyObj) : Except Err PyObj :=
  match value with
  | .vlist xs => do
      let es ← encodeList xs
      finalizeExpress [Func.or_ es]
  | .vtuple xs => do
      let es ← encodeList xs
      finalizeExpress [Func.or_ es]
  | .vdict [] => finalizeExpress [Func.or_ []]
  | .vdict _ => .error .predicateEncodeError
  | .vstr s => if s = "" then finalizeExpress [Func.or_ []] else .error .predicateEncodeError
  | _ => .error .typeError
termination_by 5 + wt value
decreasing_by all_goals first
  | (simp [wt, wtList, wtPairs]; omega)
  | simp [wt, wtList, wtPairs]
  | omega

/-- `op in (LogicOperator.IN, LogicOperator.NIN)`:
`express.append(Predicate(op, [value[0], tuple(value[1])]))`. -/
def encodeInKey (k : String) (value : PyObj) : Except Err PyObj :=
  match value with
  | .vlist (v0 :: v1 :: _) => do
      let t ← pyTuple v1
      finalizeExpress [mkPred k [v0, t]]
  | .vtuple (v0 :: v1 :: _) => do
      let t ← pyTuple v1
      finalizeExpress [mkPred k [v0, t]]
  | .vlist _ => .error .indexError
  | .vtuple _ => .error .indexError
  | .vstr s =>
      match s.toList with
      | c0 :: c1 :: _ =>
          finalizeExpress
            [mkPred k [.vstr (String.mk [c0]), .vtuple [.vstr (String.mk [c1])]]]
      | _ => .error .indexError
  | .vdict _ => .error .keyError
  | _ => .error .typeError
termination_by 5 + wt value
decreasing_by all_goals first
  | (simp [wt, wtList, wtPairs]; omega)
  | simp [wt, wtList, wtPairs]
  | omega

/-- `op in ArithmeticOperator`: `f, v = value` then `encodeArith`.
Unpacking a two-item dict or two-character string yields the keys or the
characters as strings; other arities raise `ValueError` and non-iterable
values `TypeError`. -/
def encodeArithKey (k : String) (value : PyObj) : Except Err PyObj :=
  match value with
  | .vlist [f, v] => encodeArith k f v
  | .vtuple [f, v] => encodeArith k f v
  | .vlist _ => .error .valueError
  | .vtuple _ => .error .valueError
  | .vdict [(k1, _), (k2, _)] => encodeArith k (.vstr k1) (.vstr k2)
  | .vdict _ => .error .valueError
  | .vstr s =>
      match s.toList with
      | [c1, c2] => encodeArith k (.vstr (String.mk [c1])) (.vstr (String.mk [c2]))
      | _ => .error .valueError
  | _ => .error .typeError
termination_by 5 + wt value
decreasing_by all_goals first
  | (simp [wt, wtList, wtPairs]; omega)
  | simp [wt, wtList, wtPairs]
  | omega

/-- The final `else` over a recognized operator key
(comparison-style operators, `$regex`, dialect tokens and any other
`"$"`-token): a list value maps `validate_predicate_value` over its
members, any other value is wrapped in a one-member operand list. -/
def encodeCmpKey (k : String) (value : PyObj) : Except Err PyObj :=
  match value with
  | .vlist xs => do
      let es ← vpvList xs
      finalizeExpress [mkPred k es]
  | w => do
      let v2 ← vpv w
      finalizeExpress [mkPred k [v2]]
termination_by 5 + wt value
decreasing_by all_goals first
  | (simp [wt, wtList, wtPairs]; omega)
  | simp [wt, wtList, wtPairs]
  | omega

/-- The arithmetic-operator body after `f, v = value`: a two-member list
`v` distributes into `eq(Predicate(op, [f, v[0]]), v[1])` (any other list
length fails the `assert len(v) == 2`), a non-list `v` yields
`Predicate(op, [f, v])`. -/
def encodeArith (k : String) (f v : PyObj) : Except Err PyObj :=
  match v with
  | .vlist [a, b] => do
      let a2 ← vpv a
      let b2 ← vpv b
      finalizeExpress [mkPred "$eq" [mkPred k [f, a2], b2]]
  | .vlist _ => .error .assertionError
  | w => do
      let v2 ← vpv w
      finalizeExpress [mkPred k [f, v2]]
termination_by 2 + wt v
decreasing_by all_goals first
  | (simp [wt, wtList, wtPairs]; omega)
  | simp [wt, wtList, wtPairs]
  | omega

/-- `validate_predicate_value` (src/ormantic/express.py:203-204). -/
def vpv (v : PyObj) : Except Err PyObj :=
  if check_predicate v then encode v else .ok v
termination_by 1 + wt v
decreasing_by all_goals first
  | (simp [wt, wtList, wtPairs]; omega)
  | simp [wt, wtList, wtPairs]
  | omega

/-- `[validate_predicate_value(i) for i in xs]`. -/
def vpvList : List PyObj → Except Err (List PyObj)
  | [] => .ok []
  | x :: xs => do
      let e ← vpv x
      let es ← vpvList xs
      .ok (e :: es)
termination_by l => 1 + wtList l
decreasing_by all_goals first
  | (simp [wt, wtList, wtPairs]; omega)
  | simp [wt, wtList, wtPairs]
  | omega

/-- The field-distribution loop
`for k, v in value.items(): express.append(encode(\x7bk: [field, v]\x7d))`. -/
def encodeDistrib (fieldKey : String) : List (String × PyObj) → Except Err (List PyObj)
  | [] => .ok []
  | (kk, v) :: rest => do
      let e ← encode (.vdict [(kk, .vlist [.vstr fieldKey, v])])
      let es ← encodeDistrib fieldKey rest
      .ok (e :: es)
termination_by l => 7 + wtPairs l
decreasing_by all_goals first
  | (simp [wt, wtList, wtPairs]; omega)
  | simp [wt, wtList, wtPairs]
  | omega
end

/-- The `symbols` table of the MySQL dialect
(src/ormantic/dialects/mysql/query.py:31-51); the PostgreSQL table
(src/ormantic/dialects/postgresql/query.py:31-51) is identical.  The
default case is unreachable: the compiler consults the table only after a
group-membership test. -/
def symbols : String → String
  | "$add" => "+"
  | "$sub" => "-"
  | "$mul" => "*"
  | "$truediv" => "div"
  | "$floordiv" => "/"
  | "$mod" => "%"
  | "$gt" => ">"
  | "$gte" => ">="
  | "$lt" => "<"
  | "$lte" => "<="
  | "$eq" => "="
  | "$ne" => "!="
  | "$nin" => "nin"
  | "$in" => "in"
  | "$regex" => "REGEXP"
  | "$or" => "or"
  | "$and" => "and"
  | "$like" => "like"
  | "$not_like" => "not like"
  | _ => ""

/-- Python `expr.split(".")`: split a string on literal dots (an empty
string yields one empty component, consecutive dots yield empty
components). -/
def splitDotsAux : List Char → List Char → List String
  | [], acc => [String.mk acc.reverse]
  | c :: cs, acc =>
      if c = '.' then String.mk acc.reverse :: splitDotsAux cs []
      else splitDotsAux cs (c :: acc)

/-- `expr.split(".")`. -/
def splitDots (s : String) : List String := splitDotsAux s.toList []

/-- MySQL identifier quoting for raw strings:
`".".join(f"..." for i in expr.split("."))` with each dotted component
wrapped in backticks. -/
def mysqlQuoteName (s : String) : String :=
  String.intercalate "." ((splitDots s).map fun i => "`" ++ i ++ "`")

/-- The `bracket` test of the MySQL logic-group loop
(src/ormantic/dialects/mysql/query.py:67-69):
`isinstance(i, LogicOperator) and i.operator != expr.operator`.
`LogicOperator` is the operator-group class and no runtime value is an
instance of it (operands are Predicate, FieldProxy or literal values), so
the conjunction is `False` for every operand. -/
def mysqlBracket (_i : PyObj) (_parentOp : String) : Bool := false

mutual
/-- `mysql_predicate_tokens` (src/ormantic/dialects/mysql/query.py:54-104)
in accumulator form: the function receives the token and parameter lists
built so far and returns their extended versions, mirroring the in-place
`sql`/`params` mutation of the source.  A raw string becomes a
backtick-quoted dotted identifier; a FieldProxy becomes
`table`.`column`; Predicate nodes dispatch on the operator group
(helpers below, one per branch of the source); any other value raises
`ValueError`. -/
def mysql_predicate_tokens : PyObj → List String → List PyObj →
    Except Err (List String × List PyObj)
  | .vstr s, sql, params => .ok (sql ++ [mysqlQuoteName s], params)
  | .field t n, sql, params =>
      .ok (sql ++ ["`" ++ t ++ "`.`" ++ n ++ "`"], params)
  | .pred op vs, sql, params => mysqlPredCase op vs sql params
  | _, _, _ => .error .valueError
termination_by e _ _ => 5 * wt e
decreasing_by all_goals first
  | (simp [wt, wtList, wtPairs]; omega)
  | simp [wt, wtList, wtPairs]
  | omega


/-- Operator-group dispatch of the Predicate branch: the logic group's
`$and`/`$or` loop or binary emission, the arithmetic group's binary
emission, and `OperatorUnregisteredError` outside both groups. -/
def mysqlPredCase (op : String) (vs : List PyObj) (sql : List String)
    (params : List PyObj) : Except Err (List String × List PyObj) :=
  if logicOperatorTokens.contains op then
    if op = "$and" ∨ op = "$or" then mysqlAndOrCase op vs sql params
    else mysqlBinaryCase op vs sql params
  else if arithmeticOperatorTokens.contains op then
    mysqlArithCase op vs sql params
  else .error .operatorUnregisteredError
termination_by 5 * wtList vs + 4
decreasing_by all_goals first
  | (simp [wt, wtList, wtPairs]; omega)
  | simp [wt, wtList, wtPairs]
  | omega


/-- The `$and`/`$or` branch: emit the operands joined by the operator
keyword, then `sql.pop()` removes the trailing joiner. -/
def mysqlAndOrCase (op : String) (vs : List PyObj) (sql : List String)
    (params : List PyObj) : Except Err (List String × List PyObj) := do
  let (s, p) ← mysqlLogicLoop op vs sql params
  match s.isEmpty with
  | true => .error .indexError
  | false => .ok (s.dropLast, p)
termination_by 5 * wtList vs + 3
decreasing_by all_goals first
  | (simp [wt, wtList, wtPairs]; omega)
  | simp [wt, wtList, wtPairs]
  | omega


/-- The binary logic-operator branch: `$eq`/`$ne` against the literal
`None` in second position emits `is null` / `is not null` with no
parameter; otherwise `values[0] <symbol> %s` with `values[1]` appended to
the parameters; too few values raise `IndexError`. -/
def mysqlBinaryCase (op : String) (vs : List PyObj) (sql : List String)
    (params : List PyObj) : Except Err (List String × List PyObj) :=
  match vs with
  | [v0, .vnone] =>
    if op = "$eq" then do
      let (s, p) ← mysql_predicate_tokens v0 sql params
      .ok (s ++ ["is null"], p)
    else if op = "$ne" then do
      let (s, p) ← mysql_predicate_tokens v0 sql params
      .ok (s ++ ["is not null"], p)
    else do
      let (s, p) ← mysql_predicate_tokens v0 sql params
      .ok (s ++ [symbols op, "%s"], p ++ [.vnone])
  | v0 :: v1 :: _ => do
      let (s, p) ← mysql_predicate_tokens v0 sql params
      .ok (s ++ [symbols op, "%s"], p ++ [v1])
  | [v0] => do
      let _ ← mysql_predicate_tokens v0 sql params
      .error .indexError
  | [] => .error .indexError
termination_by 5 * wtList vs + 3
decreasing_by all_goals first
  | (simp [wt, wtList, wtPairs]; omega)
  | simp [wt, wtList, wtPairs]
  | omega


/-- The arithmetic branch: `field, value = expr.values`, then
`field <symbol> %s` with `value` appended to the parameters. -/
def mysqlArithCase (op : String) (vs : List PyObj) (sql : List String)
    (params : List PyObj) : Except Err (List String × List PyObj) :=
  match vs with
  | [f, v] => do
      let (s, p) ← mysql_predicate_tokens f sql params
      .ok (s ++ [symbols op, "%s"], p ++ [v])
  | _ => .error .valueError
termination_by 5 * wtList vs + 3
decreasing_by all_goals first
  | (simp [wt, wtList, wtPairs]; omega)
  | simp [wt, wtList, wtPairs]
  | omega


/-- The `for i in predicates` loop of the `$and`/`$or` branch: each
operand is emitted (with brackets when `bracket` holds, which for the
MySQL dialect is never) followed by the operator keyword. -/
def mysqlLogicLoop (op : String) : List PyObj → List String → List PyObj →
    Except Err (List String × List PyObj)
  | [], sql, params => .ok (sql, params)
  | i :: rest, sql, params => do
      let bracket := mysqlBracket i op
      let (s, p) ← mysql_predicate_tokens i (if bracket then sql ++ ["("] else sql) params
      let s := if bracket then s ++ [")"] else s
      mysqlLogicLoop op rest (s ++ [symbols op]) p
termination_by l _ _ => 5 * wtList l + 2
decreasing_by all_goals first
  | (simp [wt, wtList, wtPairs]; omega)
  | simp [wt, wtList, wtPairs]
  | omega

end

/-- `predicate_sql_params` (src/ormantic/dialects/mysql/query.py:107-111). -/
def predicate_sql_params (expr : PyObj) : Except Err (String × List PyObj) := do
  let (sql, params) ← mysql_predicate_tokens expr [] []
  .ok (String.intercalate " " sql, params)

/-- Table metadata: the SQL table name (`__table__`) and the declared
field names in declaration order (`get_fields()` keys). -/
structure Table where
  name : String
  fields : List String
deriving DecidableEq

/-- `get_field(name)` — `None` for a name absent from the metadata,
otherwise the FieldProxy, carried here as the (table name, column name)
pair that identifies it. -/
def Table.get_field (t : Table) (n : String) : Option (String × String) :=
  if t.fields.contains n then some (t.name, n) else none

/-- Select-list entries: a FieldProxy (table, column), `CountField` and
`DistinctField` wrappers. -/
inductive QField where
  | proxy : String → String → QField
  | count : QField → QField
  | distinct : QField → QField
deriving DecidableEq

/-- `mysql_token` (src/ormantic/dialects/mysql/query.py:114-127):
`DistinctField` and `CountField` wrap their inner token; a field named
`"1"` or `"*"` stays bare, any other field becomes
a backtick-quoted `table`.`column` pair. -/
def mysql_token : QField → String
  | .distinct f => "distinct " ++ mysql_token f
  | .count f => "count(" ++ mysql_token f ++ ")"
  | .proxy t n => if n = "1" ∨ n = "*" then n else "`" ++ t ++ "`.`" ++ n ++ "`"

/-- `sql.append(sql.pop()[:-1])`: strip the last character (a trailing
comma) off the final token.  Callers always have a nonempty token list. -/
def popStrip (sql : List String) : List String :=
  sql.dropLast ++ [((sql.getLast?).getD "").dropRight 1]

/-- The accumulated state of a `Query` builder: table, select list,
filters, sort pairs (`True` ascending), offset and row count. -/
structure Query where
  table : Table
  fields : List QField
  filters : List PyObj
  sorts : List (QField × Bool)
  offset : Option Int
  rows : Option Int

/-- Python truthiness of the `offset`/`rows` slots: `None` and `0` are
falsy, every other int is truthy. -/
def truthyInt : Option Int → Bool
  | none => false
  | some n => n != 0

/-- `Query(table)` with no further arguments: `select(table=table)` takes
all declared fields in order, no filters, no sorts,
`limit(None, None)`. -/
def Query.init (t : Table) : Query :=
  { table := t, fields := t.fields.map (QField.proxy t.name),
    filters := [], sorts := [], offset := none, rows := none }

/-- `LimitMixin.limit` (src/ormantic/query.py:80-83). -/
def Query.limit (q : Query) (offset rows : Option Int) : Query :=
  { q with offset := offset, rows := rows }

/-- `LimitMixin.first` = `limit(None, 1)`. -/
def Query.first (q : Query) : Query := q.limit none (some 1)

/-- `LimitMixin.all` = `limit(None, None)`. -/
def Query.all (q : Query) : Query := q.limit none none

/-- The token/parameter lists built by `query_sql_params`
(src/ormantic/dialects/mysql/query.py:146-174) before the final
`" ".join(sql)`: SELECT list (comma-stripped), FROM, a WHERE section
compiling `Predicate(AND, filters)` when filters is nonempty, an ORDER BY
section when sorts is nonempty, and a LIMIT section when `rows` is truthy
(`offset, rows` when `offset` is also truthy, bare `rows` otherwise). -/
def query_tokens (q : Query) : Except Err (List String × List PyObj) := do
  let sql := popStrip (["select"] ++ q.fields.map (fun f => mysql_token f ++ ","))
  let sql := sql ++ ["from", "`" ++ q.table.name ++ "`"]
  let (sql, params) ←
    if q.filters.isEmpty then pure (sql, ([] : List PyObj))
    else mysql_predicate_tokens (mkPred "$and" q.filters) (sql ++ ["where"]) []
  let sql :=
    if q.sorts.isEmpty then sql
    else popStrip (sql ++ ["order", "by"] ++
      (q.sorts.map fun fs => [mysql_token fs.1, if fs.2 then "asc," else "desc,"]).flatten)
  let sql :=
    if truthyInt q.rows then
      sql ++ ["limit"] ++
        (if truthyInt q.offset then
          [toString (q.offset.getD 0) ++ ", " ++ toString (q.rows.getD 0)]
        else [toString (q.rows.getD 0)])
    else sql
  .ok (sql, params)

/-- `query_sql_params`: the joined SQL text and the parameter tuple. -/
def query_sql_params (q : Query) : Except Err (String × List PyObj) := do
  let (sql, params) ← query_tokens q
  .ok (String.intercalate " " sql, params)

/-- The accumulated state of an `Update` builder: table, filters, and the
SET mapping in insertion order. -/
structure Update where
  table : Table
  filters : List PyObj
  value : List (String × PyObj)

/-- The `for k, v in query.value.items()` SET loop of `update_sql_params`:
each pair appends `mysql_token(get_field(k)) = %s,` and its value;
`mysql_token(None)` raises `ValueError` for an unknown name. -/
def updateSetLoop (t : Table) : List (String × PyObj) → List String → List PyObj →
    Except Err (List String × List PyObj)
  | [], sql, params => .ok (sql, params)
  | (k, v) :: rest, sql, params =>
      match t.get_field k with
      | none => .error .valueError
      | some (tb, n) =>
          updateSetLoop t rest (sql ++ [mysql_token (.proxy tb n), "=", "%s,"]) (params ++ [v])

/-- `update_sql_params` (src/ormantic/dialects/mysql/query.py:191-212):
`UPDATE table SET k = %s, ...` with the trailing comma stripped, then a
WHERE section compiling `Predicate(AND, filters)` when filters is
nonempty; SET parameters come before filter parameters. -/
def update_sql_params (u : Update) : Except Err (String × List PyObj) := do
  let (sql, params) ←
    updateSetLoop u.table u.value ["update", "`" ++ u.table.name ++ "`", "set"] []
  let sql := popStrip sql
  let (sql, params) ←
    if u.filters.isEmpty then pure (sql, params)
    else mysql_predicate_tokens (mkPred "$and" u.filters) (sql ++ ["where"]) params
  .ok (String.intercalate " " sql, params)

/-- An argument to `SelectMixin.select`: a field object or a name. -/
inductive SelectArg where
  | fieldArg : QField → SelectArg
  | nameArg : String → SelectArg

/-- `SelectMixin.select` (src/ormantic/query.py:15-28) without the
`table=` shortcut: field objects are kept, names are resolved through
`get_field` and an unknown name raises `FieldNotFoundError` at once. -/
def select (t : Table) : List SelectArg → Except Err (List QField)
  | [] => .ok []
  | .fieldArg f :: rest => do
      let fs ← select t rest
      .ok (f :: fs)
  | .nameArg s :: rest =>
      match t.get_field s with
      | none => .error .fieldNotFoundError
      | some (tb, n) => do
          let fs ← select t rest
          .ok (QField.proxy tb n :: fs)

/-- The keyword loop of `FilterMixin.filter` (src/ormantic/query.py:46-51):
each `name=value` resolves the field and appends the equality predicate
`field == value`; an unknown name raises `FieldNotFoundError`. -/
def filterKwargsLoop (t : Table) : List (String × PyObj) → Except Err (List PyObj)
  | [] => .ok []
  | (name, v) :: rest =>
      match t.get_field name with
      | none => .error .fieldNotFoundError
      | some (tb, n) => do
          let fs ← filterKwargsLoop t rest
          .ok (Func.eq (.field tb n) v :: fs)

/-- `FilterMixin.filter` (alias `where`): positional Predicate arguments
are appended in order (dict arguments merge into the keyword form, which
this entry point receives directly), then the keyword equalities. -/
def filter (t : Table) (filters args : List PyObj) (kwargs : List (String × PyObj)) :
    Except Err (List PyObj) := do
  let ks ← filterKwargsLoop t kwargs
  .ok (filters ++ args ++ ks)

/-- The keyword loop of `OrderByMixin.order_by`
(src/ormantic/query.py:61-70): `name=True` appends `asc(field)`,
`name=False` appends `desc(field)`; an unknown name raises
`FieldNotFoundError`. -/
def order_byKwargsLoop (t : Table) : List (String × Bool) → Except Err (List (QField × Bool))
  | [] => .ok []
  | (name, v) :: rest =>
      match t.get_field name with
      | none => .error .fieldNotFoundError
      | some (tb, n) => do
          let ks ← order_byKwargsLoop t rest
          .ok ((QField.proxy tb n, v) :: ks)

/-- `OrderByMixin.order_by`: the positional pairs then the resolved
keyword pairs are appended to the accumulated sorts. -/
def order_by (t : Table) (sorts args : List (QField × Bool)) (kwargs : List (String × Bool)) :
    Except Err (List (QField × Bool)) := do
  let ks ← order_byKwargsLoop t kwargs
  .ok (sorts ++ args ++ ks)

/-- PostgreSQL identifier for a raw string operand
(src/ormantic/dialects/postgresql/query.py:55-56):
`".".join(f"..." for i in expr.split("."))` — the unquoted string. -/
def postgresqlQuoteName (s : String) : String :=
  String.intercalate "." (splitDots s)

/-- Modelled from the spec: `FieldProxy.orm_name`, which the PostgreSQL
dialect calls but which is absent from src/ormantic/fields.py, returns
the bare column name — the spec (section 4.5) has the PostgreSQL compiler
use unquoted identifiers, as its tests confirm. -/
def postgresqlFieldName (_t : String) (n : String) : String := n

mutual
/-- `postgresql_predicate_tokens`
(src/ormantic/dialects/postgresql/query.py:54-103) in the same
accumulator form as the MySQL compiler.  The only structural difference
is the bracket test of the logic-group loop:
`i.operator in (LogicOperator.AND, LogicOperator.OR) and
i.operator != expr.operator`, a real parenthesization of mixed-operator
subgroups (reading `.operator` off a non-Predicate operand raises
`AttributeError`). -/
def postgresql_predicate_tokens : PyObj → List String → List PyObj →
    Except Err (List String × List PyObj)
  | .vstr s, sql, params => .ok (sql ++ [postgresqlQuoteName s], params)
  | .field t n, sql, params => .ok (sql ++ [postgresqlFieldName t n], params)
  | .pred op vs, sql, params =>
      if logicOperatorTokens.contains op then
        if op = "$and" ∨ op = "$or" then do
          let (s, p) ← postgresqlLogicLoop op vs sql params
          match s.isEmpty with
          | true => .error .indexError
          | false => .ok (s.dropLast, p)
        else
          match vs with
          | [v0, .vnone] =>
            if op = "$eq" then do
              let (s, p) ← postgresql_predicate_tokens v0 sql params
              .ok (s ++ ["is null"], p)
            else if op = "$ne" then do
              let (s, p) ← postgresql_predicate_tokens v0 sql params
              .ok (s ++ ["is not null"], p)
            else do
              let (s, p) ← postgresql_predicate_tokens v0 sql params
              .ok (s ++ [symbols op, "%s"], p ++ [.vnone])
          | v0 :: v1 :: _ => do
              let (s, p) ← postgresql_predicate_tokens v0 sql params
              .ok (s ++ [symbols op, "%s"], p ++ [v1])
          | [v0] => do
              let _ ← postgresql_predicate_tokens v0 sql params
              .error .indexError
          | [] => .error .indexError
      else if arithmeticOperatorTokens.contains op then
        match vs with
        | [f, v] => do
            let (s, p) ← postgresql_predicate_tokens f sql params
            .ok (s ++ [symbols op, "%s"], p ++ [v])
        | _ => .error .valueError
      else .error .operatorUnregisteredError
  | _, _, _ => .error .valueError

/-- The `for i in predicates` loop of the PostgreSQL `$and`/`$or`
branch, with the real bracket test. -/
def postgresqlLogicLoop (op : String) : List PyObj → List String → List PyObj →
    Except Err (List String × List PyObj)
  | [], sql, params => .ok (sql, params)
  | i :: rest, sql, params => do
      let bracket ←
        match i with
        | .pred iop _ => .ok (decide ((iop = "$and" ∨ iop = "$or") ∧ iop ≠ op))
        | _ => .error Err.attributeError
      let (s, p) ← postgresql_predicate_tokens i (if bracket then sql ++ ["("] else sql) params
      let s := if bracket then s ++ [")"] else s
      postgresqlLogicLoop op rest (s ++ [symbols op]) p
end

/-- The interned-operator registry `OperatorMeta.__operators__`: tokens
mapped to instance identities (numbered in allocation order), plus the
next fresh identity. -/
structure OperatorRegistry where
  ops : List (String × Nat)
  next : Nat
deriving DecidableEq

/-- `Operator(token)` — `OperatorMeta.__call__` plus `Operator.__new__`
(src/ormantic/operators.py:6-32).  A registry hit returns the interned
instance with the registry unchanged; a miss checks the `$` prefix
(raising `ValueError` otherwise) and interns a fresh instance. -/
def OperatorCall (r : OperatorRegistry) (token : String) :
    Except Err (OperatorRegistry × Nat) :=
  match r.ops.lookup token with
  | some i => .ok (r, i)
  | none =>
      if startsWithDollar token then
        .ok ({ ops := r.ops ++ [(token, r.next)], next := r.next + 1 }, r.next)
      else .error .valueError

/-- The `negative` table (src/ormantic/operators.py:123-134). -/
def negative : List (String × String) :=
  [("$gt", "$lte"), ("$gte", "$lt"), ("$lt", "$gte"), ("$lte", "$gt"),
   ("$eq", "$ne"), ("$ne", "$eq"), ("$nin", "$in"), ("$in", "$nin"),
   ("$or", "$and"), ("$and", "$or")]

/-- `negatived` (src/ormantic/operators.py:137-138): `negative.get(op)`,
which is `None` for an operator with no declared negation — no error is
raised and no `NoNegationError` class exists in ormantic/errors.py. -/
def negatived (op : String) : Option String := negative.lookup op

/-- A declared model field as the metaclass sees it. -/
structure FieldSpec where
  name : String
  primary : Bool
  autoincrement : Bool

/-- The autoincrement registration loop of `ModelMetaclass.__new__`
(src/ormantic/model.py:90-103), run at class-definition time over the
declared fields in order: the first autoincrement field is recorded as
`__inc_field__`; a second autoincrement field raises
`ValueError("Table fields can only be one: ...")` — a plain `ValueError`,
not the `AutoIncrementFieldExists` class of ormantic/errors.py. -/
def modelIncFieldLoop : Option String → List FieldSpec → Except Err (Option String)
  | inc, [] => .ok inc
  | inc, f :: rest =>
      if f.autoincrement then
        match inc with
        | none => modelIncFieldLoop (some f.name) rest
        | some _ => .error .valueError
      else modelIncFieldLoop inc rest

/-- Running the registration loop on a fresh class
(`__inc_field__` unset). -/
def modelIncField (fields : List FieldSpec) : Except Err (Option String) :=
  modelIncFieldLoop none fields

/-- Is the value a Predicate node? -/
def isPredObj : PyObj → Bool
  | .pred _ _ => true
  | _ => false

/-- Is the value a Python list? -/
def isVListObj : PyObj → Bool
  | .vlist _ => true
  | _ => false

mutual
/-- The normalized predicate shapes — the Predicate trees whose `dict()`
serialization `encode` reproduces exactly.  A node's operator must be a
registered token; an `$and` node needs at least two operand Predicates,
none itself an `$and`; an `$or` node's operand Predicates may not be
multi-value `$or` nodes (the constructor would flatten them); `$in`/`$nin`
carry a non-Predicate operand and a tuple; an arithmetic node carries a
non-Predicate left operand and a right operand that is no list and either
a non-predicate-shaped plain value or a Predicate that the constructor
would not flatten; any other operator carries operands that are either
such Predicates or plain values that `check_predicate` rejects. -/
def normalPred : PyObj → Bool
  | .pred op vs =>
    isOp op &&
    (if op = "$and" then decide (2 ≤ vs.length) && normalAndChildren vs
     else if op = "$or" then normalOrChildren vs
     else if op = "$in" ∨ op = "$nin" then
       (match vs with
        | [a, .vtuple _] => !(isPredObj a)
        | _ => false)
     else if arithmeticOperatorTokens.contains op then
       (match vs with
        | [f, v] => !(isPredObj f) && !(isVListObj v) && normalCmpChildren op [v]
        | _ => false)
     else normalCmpChildren op vs)
  | _ => false

/-- Operand condition under an `$and` node. -/
def normalAndChildren : List PyObj → Bool
  | [] => true
  | .pred o w :: rest =>
      normalPred (.pred o w) && (o != "$and") && normalAndChildren rest
  | _ :: _ => false

/-- Operand condition under an `$or` node. -/
def normalOrChildren : List PyObj → Bool
  | [] => true
  | .pred o w :: rest =>
      normalPred (.pred o w) && !((o == "$or") && decide (1 < w.length)) &&
        normalOrChildren rest
  | _ :: _ => false

/-- Operand condition under a comparison-style node with operator `op`. -/
def normalCmpChildren (op : String) : List PyObj → Bool
  | [] => true
  | .pred o w :: rest =>
      normalPred (.pred o w) && !((o == op) && decide (1 < w.length)) &&
        normalCmpChildren op rest
  | c :: rest => !(check_predicate c) && normalCmpChildren op rest
end

/-- A value the constructor's flattening step leaves alone. -/
def predNoFlatten (op : String) (c : PyObj) : Prop :=
  ∀ o w, c = .pred o w → ¬(o = op ∧ 1 < w.length)

/-- The contribution of one operand to the constructor's value list. -/
def expandOne (op : String) (i : PyObj) : List PyObj :=
  match i with
  | .pred o w => if o = op ∧ 1 < w.length then w else [i]
  | x => [x]

/-- The `User` model of the dialect test-suites: table `user` with fields
`id`, `name`, `age` declared in that order. -/
def userTable : Table := { name := "user", fields := ["id", "name", "age"] }

/-- `(User.id > 1) & (User.id < 10)` — the first `filter()` argument of
Scenario 3. -/
def q3f1 : PyObj :=
  mkPred "$and" [Func.gt (.field "user" "id") (.vint 1),
                 Func.lt (.field "user" "id") (.vint 10)]

/-- `(User.name == "tom") | (User.name == "Tom")` — the second `filter()`
argument of Scenario 3. -/
def q3f2 : PyObj :=
  mkPred "$or" [Func.eq (.field "user" "name") (.vstr "tom"),
                Func.eq (.field "user" "name") (.vstr "Tom")]

/-- The Scenario-3 query
`Query(User).filter((User.id>1)&(User.id<10)).filter((User.name=="tom")|(User.name=="Tom"))`. -/
def q3 : Query := { Query.init userTable with filters := [q3f1, q3f2] }

/-- `Update(User).filter(User.id == 1).update(name="x")` — the Scenario-6
update. -/
def u6 : Update :=
  { table := userTable,
    filters := [Func.eq (.field "user" "id") (.vint 1)],
    value := [("name", .vstr "x")] }

/-- The LIMIT section of `query_tokens` as a function of the
`offset`/`rows` slots alone. -/
def queryLimit (offset rows : Option Int) : List String :=
  if truthyInt rows then
    "limit" :: (if truthyInt offset then
        [toString (offset.getD 0) ++ ", " ++ toString (rows.getD 0)]
      else [toString (rows.getD 0)])
  else []

/-! Unfolding equations for the encoder (it is defined by well-founded
recursion, so these rewriting lemmas stand in for definitional
unfolding). -/

theorem encode_pred (op : String) (vs : List PyObj) :
    encode (.pred op vs) = .ok (.pred op vs) := by
  simp only [encode]

theorem encode_vlist (xs : List PyObj) :
    encode (.vlist xs) = (do
      let es ← encodeList xs
      Except.ok (Func.and_ es)) := by
  simp only [encode]

theorem encode_vdict_nil : encode (.vdict []) = .error .keyError := by
  simp only [encode]

theorem encode_vdict_single (k : String) (v : PyObj) :
    encode (.vdict [(k, v)]) = encodeDict1 k v := by
  simp only [encode]

theorem encode_vdict_multi (p q : String × PyObj) (rest : List (String × PyObj)) :
    encode (.vdict (p :: q :: rest)) = (do
      let es ← encodePairs (p :: q :: rest)
      Except.ok (Func.and_ es)) := by
  simp only [encode]

theorem encodeList_nil : encodeList [] = .ok [] := by simp only [encodeList]

theorem encodeList_cons (x : PyObj) (xs : List PyObj) :
    encodeList (x :: xs) = (do
      let e ← encode x
      let es ← encodeList xs
      Except.ok (e :: es)) := by
  simp only [encodeList]

theorem encodePairs_nil : encodePairs [] = .ok [] := by simp only [encodePairs]

theorem encodePairs_cons (k : String) (v : PyObj) (rest : List (String × PyObj)) :
    encodePairs ((k, v) :: rest) = (do
      let e ← encodeDict1 k v
      let es ← encodePairs rest
      Except.ok (e :: es)) := by
  simp only [encodePairs]

theorem vpv_eq (v : PyObj) :
    vpv v = if check_predicate v then encode v else .ok v := by
  simp only [vpv]

theorem vpvList_nil : vpvList [] = .ok [] := by simp only [vpvList]

theorem vpvList_cons (x : PyObj) (xs : List PyObj) :
    vpvList (x :: xs) = (do
      let e ← vpv x
      let es ← vpvList xs
      Except.ok (e :: es)) := by
  simp only [vpvList]

theorem encodeDistrib_nil (fieldKey : String) : encodeDistrib fieldKey [] = .ok [] := by
  simp only [encodeDistrib]

theorem encodeDistrib_cons (fieldKey kk : String) (v : PyObj)
    (rest : List (String × PyObj)) :
    encodeDistrib fieldKey ((kk, v) :: rest) = (do
      let e ← encode (.vdict [(kk, .vlist [.vstr fieldKey, v])])
      let es ← encodeDistrib fieldKey rest
      Except.ok (e :: es)) := by
  simp only [encodeDistrib]

theorem encodeDict1_op (k : String) (h0 : startsWithDollar k = true) (value : PyObj) :
    encodeDict1 k value = encodeOpKey k value := by
  rw [encodeDict1.eq_def, h0]
  rfl

theorem encodeDict1_nonop_dict (k : String) (h0 : startsWithDollar k = false)
    (kvs : List (String × PyObj)) (hc : check_predicate (.vdict kvs) = true) :
    encodeDict1 k (.vdict kvs) = (do
      let es ← encodeDistrib k kvs
      finalizeExpress es) := by
  rw [encodeDict1.eq_def, h0]
  simp [hc]

theorem encodeDict1_nonop_plain (k : String) (h0 : startsWithDollar k = false)
    (value : PyObj) (hc : check_predicate value = false) :
    encodeDict1 k value = finalizeExpress [mkPred "$eq" [.vstr k, value]] := by
  rw [encodeDict1.eq_def, h0]
  simp [hc]

theorem encodeOpKey_and (value : PyObj) :
    encodeOpKey "$and" value = encodeAndKey value := by
  rw [encodeOpKey.eq_def]
  simp

theorem encodeOpKey_or (value : PyObj) :
    encodeOpKey "$or" value = encodeOrKey value := by
  rw [encodeOpKey.eq_def]
  simp

theorem encodeOpKey_in (k : String) (hk : k = "$in" ∨ k = "$nin") (value : PyObj) :
    encodeOpKey k value = encodeInKey k value := by
  rcases hk with h | h <;> subst h <;> (rw [encodeOpKey.eq_def]; simp)

theorem encodeOpKey_arith (k : String)
    (hk : arithmeticOperatorTokens.contains k = true) (value : PyObj) :
    encodeOpKey k value = encodeArithKey k value := by
  have hk2 : k = "$add" ∨ k = "$sub" ∨ k = "$mul" ∨ k = "$truediv" ∨
      k = "$floordiv" ∨ k = "$mod" := by
    simpa [arithmeticOperatorTokens] using hk
  rcases hk2 with h | h | h | h | h | h <;> subst h <;>
    (rw [encodeOpKey.eq_def]; simp [arithmeticOperatorTokens])

theorem encodeOpKey_cmp (k : String)
    (h1 : k ≠ "$and") (h2 : k ≠ "$or") (h3 : ¬(k = "$in" ∨ k = "$nin"))
    (h4 : arithmeticOperatorTokens.contains k = false) (value : PyObj) :
    encodeOpKey k value = encodeCmpKey k value := by
  rw [encodeOpKey.eq_def]
  simp [h1, h2, h3, h4]
  intro hmem
  have hc : arithmeticOperatorTokens.contains k = true := by simpa using hmem
  rw [hc] at h4
  exact absurd h4 (by simp)

theorem encodeAndKey_vlist (xs : List PyObj) :
    encodeAndKey (.vlist xs) = (do
      let es ← encodeList xs
      finalizeExpress es) := by
  simp only [encodeAndKey]

theorem encodeOrKey_vlist (xs : List PyObj) :
    encodeOrKey (.vlist xs) = (do
      let es ← encodeList xs
      finalizeExpress [Func.or_ es]) := by
  simp only [encodeOrKey]

theorem encodeInKey_vlist (k : String) (v0 v1 : PyObj) (rest : List PyObj) :
    encodeInKey k (.vlist (v0 :: v1 :: rest)) = (do
      let t ← pyTuple v1
      finalizeExpress [mkPred k [v0, t]]) := by
  simp only [encodeInKey]

theorem encodeArithKey_vlist2 (k : String) (f v : PyObj) :
    encodeArithKey k (.vlist [f, v]) = encodeArith k f v := by
  simp only [encodeArithKey]

theorem encodeArith_vlist2 (k : String) (f a b : PyObj) :
    encodeArith k f (.vlist [a, b]) = (do
      let a2 ← vpv a
      let b2 ← vpv b
      finalizeExpress [mkPred "$eq" [mkPred k [f, a2], b2]]) := by
  simp only [encodeArith]

theorem encodeArith_not_list (k : String) (f v : PyObj)
    (h : ∀ ws, v ≠ .vlist ws) :
    encodeArith k f v = (do
      let v2 ← vpv v
      finalizeExpress [mkPred k [f, v2]]) := by
  cases v <;> first
    | exact absurd rfl (h _)
    | simp only [encodeArith]

theorem encodeCmpKey_vlist (k : String) (xs : List PyObj) :
    encodeCmpKey k (.vlist xs) = (do
      let es ← vpvList xs
      finalizeExpress [mkPred k es]) := by
  simp only [encodeCmpKey]

theorem encodeCmpKey_not_list (k : String) (value : PyObj)
    (h : ∀ ws, value ≠ .vlist ws) :
    encodeCmpKey k value = (do
      let v2 ← vpv value
      finalizeExpress [mkPred k [v2]]) := by
  cases value <;> first
    | exact absurd rfl (h _)
    | simp only [encodeCmpKey]

theorem flattenValues_eq_self (op : String) (vs : List PyObj)
    (h : ∀ c ∈ vs, predNoFlatten op c) :
    flattenValues op vs = vs := by
  induction vs with
  | nil => rfl
  | cons c rest ih =>
      have hr : flattenValues op rest = rest :=
        ih fun x hx => h x (List.mem_cons_of_mem _ hx)
      cases c with
      | pred o w =>
          have hc := h (.pred o w) (List.mem_cons_self _ _) o w rfl
          simp only [flattenValues, hr, if_neg hc, List.singleton_append]
      | _ => simp only [flattenValues, hr, List.singleton_append]

theorem mkPred_eq_self (op : String) (vs : List PyObj)
    (h : ∀ c ∈ vs, predNoFlatten op c) :
    mkPred op vs = .pred op vs := by
  rw [mkPred, flattenValues_eq_self op vs h]

theorem dictValues_nil : dictValues [] = [] := by simp [dictValues]

theorem dictValues_cons_pred (o : String) (w rest : List PyObj) :
    dictValues (.pred o w :: rest) = predicateDict (.pred o w) :: dictValues rest := by
  simp only [dictValues, predicateDict]

theorem dictValues_cons_nonpred (c : PyObj) (rest : List PyObj)
    (h : isPredObj c = false) :
    dictValues (c :: rest) = c :: dictValues rest := by
  cases c with
  | pred o w => simp [isPredObj] at h
  | vint a => simp [dictValues]
  | vstr s => simp [dictValues]
  | vnone => simp [dictValues]
  | vlist l => simp [dictValues]
  | vtuple l => simp [dictValues]
  | vdict l => simp [dictValues]
  | field t n => simp [dictValues]

theorem finalizeExpress_one (e : PyObj) : finalizeExpress [e] = .ok e := rfl

theorem finalizeExpress_big (es : List PyObj) (h : 2 ≤ es.length) :
    finalizeExpress es = .ok (mkPred "$and" es) := by
  match es with
  | [] => simp at h
  | [e] => simp at h
  | a :: b :: rest => rfl

theorem isOp_startsWithDollar (op : String) (h : isOp op = true) :
    startsWithDollar op = true := by
  have hm : op ∈ operatorTokens := by simpa [isOp] using h
  fin_cases hm <;> rfl

theorem normalPred_isOp (op : String) (vs : List PyObj)
    (h : normalPred (.pred op vs) = true) : isOp op = true := by
  unfold normalPred at h
  exact ((Bool.and_eq_true _ _).mp h).1

theorem check_predicate_predicateDict (p : PyObj) (h : normalPred p = true) :
    check_predicate (predicateDict p) = true := by
  cases p with
  | pred op vs =>
      have hop := normalPred_isOp op vs h
      simp [predicateDict, check_predicate, allKeysOps, hop]
  | _ => simp [normalPred] at h

theorem normalAndChildren_mem (vs : List PyObj) (h : normalAndChildren vs = true) :
    ∀ c ∈ vs, isPredObj c = true ∧ normalPred c = true ∧ predNoFlatten "$and" c := by
  induction vs with
  | nil => intro c hc; simp at hc
  | cons c rest ih =>
      intro x hx
      cases c with
      | pred o w =>
          simp only [normalAndChildren, Bool.and_eq_true] at h
          obtain ⟨⟨hn, ho⟩, hrest⟩ := h
          rcases List.mem_cons.1 hx with hx | hx
          · subst hx
            refine ⟨rfl, hn, ?_⟩
            intro o2 w2 he hcontra
            cases he
            exact absurd hcontra.1 (by simpa using ho)
          · exact ih hrest x hx
      | _ => simp [normalAndChildren] at h

theorem normalOrChildren_mem (vs : List PyObj) (h : normalOrChildren vs = true) :
    ∀ c ∈ vs, isPredObj c = true ∧ normalPred c = true ∧ predNoFlatten "$or" c := by
  induction vs with
  | nil => intro c hc; simp at hc
  | cons c rest ih =>
      intro x hx
      cases c with
      | pred o w =>
          simp only [normalOrChildren, Bool.and_eq_true] at h
          obtain ⟨⟨hn, ho⟩, hrest⟩ := h
          rcases List.mem_cons.1 hx with hx | hx
          · subst hx
            refine ⟨rfl, hn, ?_⟩
            intro o2 w2 he hcontra
            cases he
            simp only [Bool.not_eq_true', Bool.and_eq_false_iff] at ho
            rcases ho with ho | ho
            · exact absurd hcontra.1 (by simpa using ho)
            · exact absurd hcontra.2 (by simpa using ho)
          · exact ih hrest x hx
      | _ => simp [normalOrChildren] at h

theorem normalCmpChildren_mem (op : String) (vs : List PyObj)
    (h : normalCmpChildren op vs = true) :
    ∀ c ∈ vs, predNoFlatten op c ∧
      ((isPredObj c = true ∧ normalPred c = true) ∨
       (isPredObj c = false ∧ check_predicate c = false)) := by
  induction vs with
  | nil => intro c hc; simp at hc
  | cons c rest ih =>
      intro x hx
      cases c with
      | pred o w =>
          simp only [normalCmpChildren, Bool.and_eq_true] at h
          obtain ⟨⟨hn, ho⟩, hrest⟩ := h
          rcases List.mem_cons.1 hx with hx | hx
          · subst hx
            refine ⟨?_, Or.inl ⟨rfl, hn⟩⟩
            intro o2 w2 he hcontra
            cases he
            simp only [Bool.not_eq_true', Bool.and_eq_false_iff] at ho
            rcases ho with ho | ho
            · exact absurd hcontra.1 (by simpa using ho)
            · exact absurd hcontra.2 (by simpa using ho)
          · exact ih hrest x hx
      | _ =>
          rcases List.mem_cons.1 hx with hx | hx
          · subst hx
            simp only [normalCmpChildren, Bool.and_eq_true] at h
            refine ⟨?_, Or.inr ⟨rfl, by simpa using h.1⟩⟩
            intro o2 w2 he
            cases he
          · simp only [normalCmpChildren, Bool.and_eq_true] at h
            exact ih h.2 x hx

theorem encodeList_dictValues (cs : List PyObj)
    (hc : ∀ c ∈ cs, isPredObj c = true ∧ normalPred c = true)
    (IH : ∀ c ∈ cs, normalPred c = true → encode (predicateDict c) = .ok c) :
    encodeList (dictValues cs) = .ok cs := by
  induction cs with
  | nil => simp [dictValues, encodeList_nil]
  | cons c rest ih =>
      obtain ⟨hp, hn⟩ := hc c (List.mem_cons_self _ _)
      cases c with
      | pred o w =>
          rw [dictValues_cons_pred, encodeList_cons,
              IH _ (List.mem_cons_self _ _) hn,
              ih (fun x hx => hc x (List.mem_cons_of_mem _ hx))
                 (fun x hx h => IH x (List.mem_cons_of_mem _ hx) h)]
          rfl
      | _ => simp [isPredObj] at hp

theorem vpvList_dictValues (op : String) (cs : List PyObj)
    (hc : ∀ c ∈ cs, predNoFlatten op c ∧
      ((isPredObj c = true ∧ normalPred c = true) ∨
       (isPredObj c = false ∧ check_predicate c = false)))
    (IH : ∀ c ∈ cs, normalPred c = true → encode (predicateDict c) = .ok c) :
    vpvList (dictValues cs) = .ok cs := by
  induction cs with
  | nil => simp [dictValues, vpvList_nil]
  | cons c rest ih =>
      have htail := ih (fun x hx => hc x (List.mem_cons_of_mem _ hx))
        (fun x hx h => IH x (List.mem_cons_of_mem _ hx) h)
      obtain ⟨-, hcase⟩ := hc c (List.mem_cons_self _ _)
      rcases hcase with ⟨hp, hn⟩ | ⟨hp, hch⟩
      · cases c with
        | pred o w =>
            rw [dictValues_cons_pred, vpvList_cons, vpv_eq,
                check_predicate_predicateDict _ hn, if_pos rfl,
                IH _ (List.mem_cons_self _ _) hn, htail]
            rfl
        | _ => simp [isPredObj] at hp
      · rw [dictValues_cons_nonpred _ _ hp, vpvList_cons, vpv_eq, if_neg (by simp [hch]),
            htail]
        rfl

theorem encode_predicateDict_of_normal_bound :
    ∀ (n : Nat) (p : PyObj), sizeOf p ≤ n → normalPred p = true →
      encode (predicateDict p) = .ok p := by
  intro n
  induction n with
  | zero =>
      intro p hsz _
      cases p <;> simp at hsz
  | succ n ih =>
      intro p hsz hnorm
      cases p with
      | vint a => simp [normalPred] at hnorm
      | vstr s => simp [normalPred] at hnorm
      | vnone => simp [normalPred] at hnorm
      | vlist l => simp [normalPred] at hnorm
      | vtuple l => simp [normalPred] at hnorm
      | vdict l => simp [normalPred] at hnorm
      | field t m => simp [normalPred] at hnorm
      | pred op vs =>
        have hop : isOp op = true := normalPred_isOp op vs hnorm
        have hsd : startsWithDollar op = true := isOp_startsWithDollar op hop
        have hmem : ∀ c ∈ vs, normalPred c = true → encode (predicateDict c) = .ok c := by
          intro c hcmem hcn
          apply ih
          · have h1 : sizeOf c < sizeOf vs := List.sizeOf_lt_of_mem hcmem
            have h2 : sizeOf (PyObj.pred op vs) = 1 + sizeOf op + sizeOf vs := by simp
            omega
          · exact hcn
        unfold normalPred at hnorm
        obtain ⟨-, hbody⟩ := (Bool.and_eq_true _ _).mp hnorm
        show encode (.vdict [(op, .vlist (dictValues vs))]) = .ok (.pred op vs)
        rw [encode_vdict_single, encodeDict1_op _ hsd]
        by_cases hand : op = "$and"
        · subst hand
          rw [if_pos rfl, Bool.and_eq_true] at hbody
          obtain ⟨hlen, hch⟩ := hbody
          have hlen2 : 2 ≤ vs.length := of_decide_eq_true hlen
          have hA := normalAndChildren_mem vs hch
          rw [encodeOpKey_and, encodeAndKey_vlist,
              encodeList_dictValues vs (fun c hc => ⟨(hA c hc).1, (hA c hc).2.1⟩) hmem]
          show finalizeExpress vs = .ok (.pred "$and" vs)
          rw [finalizeExpress_big vs hlen2,
              mkPred_eq_self _ _ (fun c hc => (hA c hc).2.2)]
        · rw [if_neg hand] at hbody
          by_cases hor : op = "$or"
          · subst hor
            rw [if_pos rfl] at hbody
            have hO := normalOrChildren_mem vs hbody
            rw [encodeOpKey_or, encodeOrKey_vlist,
                encodeList_dictValues vs (fun c hc => ⟨(hO c hc).1, (hO c hc).2.1⟩) hmem]
            show finalizeExpress [Func.or_ vs] = .ok (.pred "$or" vs)
            rw [finalizeExpress_one, Func.or_,
                mkPred_eq_self _ _ (fun c hc => (hO c hc).2.2)]
          · rw [if_neg hor] at hbody
            by_cases hin : op = "$in" ∨ op = "$nin"
            · rw [if_pos hin] at hbody
              rcases vs with _ | ⟨a, _ | ⟨b, _ | ⟨c2, rest⟩⟩⟩
              · simp at hbody
              · simp at hbody
              · cases b with
                | vtuple ts =>
                    have hpa : isPredObj a = false := by simpa using hbody
                    rw [dictValues_cons_nonpred _ _ hpa,
                        dictValues_cons_nonpred _ _ (by rfl), dictValues_nil]
                    rw [encodeOpKey_in _ hin, encodeInKey_vlist]
                    show finalizeExpress [mkPred op [a, .vtuple ts]] =
                      .ok (.pred op [a, .vtuple ts])
                    rw [finalizeExpress_one, mkPred_eq_self]
                    intro c hc
                    rcases List.mem_cons.1 hc with hc | hc
                    · subst hc
                      intro o2 w2 he
                      subst he
                      simp [isPredObj] at hpa
                    · intro o2 w2 he
                      rcases List.mem_cons.1 hc with hc2 | hc2
                      · subst hc2; cases he
                      · simp at hc2
                | _ => simp at hbody
              · simp at hbody
            · rw [if_neg hin] at hbody
              by_cases harith : arithmeticOperatorTokens.contains op = true
              · rw [if_pos harith] at hbody
                rcases vs with _ | ⟨f, _ | ⟨v, _ | ⟨c2, rest⟩⟩⟩
                · simp at hbody
                · simp at hbody
                · simp only [Bool.and_eq_true] at hbody
                  obtain ⟨⟨hpf, hvl⟩, hcv⟩ := hbody
                  have hC := normalCmpChildren_mem op [v] hcv
                  obtain ⟨hnf, hcase⟩ := hC v (List.mem_cons_self _ _)
                  rw [dictValues_cons_nonpred _ _ (by simpa using hpf)]
                  rw [encodeOpKey_arith _ harith]
                  rcases hcase with ⟨hpv, hnv⟩ | ⟨hpv, hchv⟩
                  · cases v with
                    | pred o w =>
                        rw [dictValues_cons_pred, dictValues_nil]
                        show encodeArithKey op (.vlist [f, predicateDict (.pred o w)]) =
                          .ok (.pred op [f, .pred o w])
                        rw [encodeArithKey_vlist2,
                            encodeArith_not_list _ _ _ (by simp [predicateDict]),
                            vpv_eq, check_predicate_predicateDict _ hnv, if_pos rfl,
                            hmem _ (by simp) hnv]
                        show finalizeExpress [mkPred op [f, .pred o w]] =
                          .ok (.pred op [f, .pred o w])
                        rw [finalizeExpress_one, mkPred_eq_self]
                        intro c hc
                        rcases List.mem_cons.1 hc with hc | hc
                        · subst hc
                          intro o2 w2 he
                          subst he
                          simp [isPredObj] at hpf
                        · rcases List.mem_cons.1 hc with hc2 | hc2
                          · subst hc2; exact hnf
                          · simp at hc2
                    | _ => simp [isPredObj] at hpv
                  · rw [dictValues_cons_nonpred _ _ hpv, dictValues_nil]
                    show encodeArithKey op (.vlist [f, v]) = .ok (.pred op [f, v])
                    rw [encodeArithKey_vlist2,
                        encodeArith_not_list _ _ _ ?notlist,
                        vpv_eq, if_neg (by simp [hchv])]
                    case notlist =>
                      intro ws he
                      subst he
                      simp [isVListObj] at hvl
                    show finalizeExpress [mkPred op [f, v]] = .ok (.pred op [f, v])
                    rw [finalizeExpress_one, mkPred_eq_self]
                    intro c hc
                    rcases List.mem_cons.1 hc with hc | hc
                    · subst hc
                      intro o2 w2 he
                      subst he
                      simp [isPredObj] at hpf
                    · rcases List.mem_cons.1 hc with hc2 | hc2
                      · subst hc2; exact hnf
                      · simp at hc2
                · simp at hbody
              · rw [if_neg harith] at hbody
                have hC := normalCmpChildren_mem op vs hbody
                rw [encodeOpKey_cmp op hand hor hin (by simpa using harith),
                    encodeCmpKey_vlist,
                    vpvList_dictValues op vs hC hmem]
                show finalizeExpress [mkPred op vs] = .ok (.pred op vs)
                rw [finalizeExpress_one, mkPred_eq_self _ _ (fun c hc => (hC c hc).1)]

/-- Round trip on normalized predicates: re-encoding the `dict()`
serialization of a normalized Predicate reproduces the Predicate. -/
theorem encode_predicateDict_of_normal (p : PyObj) (h : normalPred p = true) :
    encode (predicateDict p) = .ok p :=
  encode_predicateDict_of_normal_bound (sizeOf p) p le_rfl h

theorem flattenValues_cons_expand (op : String) (i : PyObj) (rest : List PyObj) :
    flattenValues op (i :: rest) = expandOne op i ++ flattenValues op rest := by
  cases i <;> rfl

theorem expandOne_ne_nil (op : String) (i : PyObj) : expandOne op i ≠ [] := by
  cases i with
  | pred o w =>
      by_cases h : o = op ∧ 1 < w.length
      · simp only [expandOne, if_pos h]
        intro he
        rw [he] at h
        simp at h
      · simp [expandOne, if_neg h]
  | _ => simp [expandOne]

theorem flattenValues_pair (op : String) (b c : PyObj) :
    flattenValues op [b, c] = expandOne op b ++ expandOne op c := by
  rw [flattenValues_cons_expand, flattenValues_cons_expand]
  simp [flattenValues]

/-- Constructor associativity: `Predicate(op, [a, Predicate(op, [b, c])])`
equals `Predicate(op, [a, b, c])` — the inner same-operator node always
has at least two values after its own flattening, so the outer
construction splices it. -/
theorem mkPred_and_assoc (a b c : PyObj) :
    mkPred "$and" [a, mkPred "$and" [b, c]] = mkPred "$and" [a, b, c] := by
  have hb := List.length_pos.2 (expandOne_ne_nil "$and" b)
  have hc := List.length_pos.2 (expandOne_ne_nil "$and" c)
  have hlen : 1 < (flattenValues "$and" [b, c]).length := by
    rw [flattenValues_pair, List.length_append]
    omega
  show PyObj.pred "$and" (flattenValues "$and" [a, mkPred "$and" [b, c]]) =
    PyObj.pred "$and" (flattenValues "$and" [a, b, c])
  rw [flattenValues_cons_expand "$and" a]
  have hinner : flattenValues "$and" [mkPred "$and" [b, c]] = flattenValues "$and" [b, c] := by
    rw [flattenValues_cons_expand]
    show expandOne "$and" (.pred "$and" (flattenValues "$and" [b, c])) ++ [] = _
    rw [List.append_nil]
    simp [expandOne, hlen]
  rw [hinner, flattenValues_pair, flattenValues_cons_expand "$and" a, flattenValues_pair]

/-- Mixed operators never flatten: an `$and` operand under an `$or`
construction is kept whole as the first value. -/
theorem mkPred_mixed_keeps_group (a b c : PyObj) :
    ∃ tail, mkPred "$or" [mkPred "$and" [a, b], c] =
      .pred "$or" (mkPred "$and" [a, b] :: tail) := by
  refine ⟨expandOne "$or" c, ?_⟩
  show PyObj.pred "$or" (flattenValues "$or" [mkPred "$and" [a, b], c]) = _
  rw [flattenValues_pair]
  have h1 : expandOne "$or" (mkPred "$and" [a, b]) = [mkPred "$and" [a, b]] := by
    simp [mkPred, expandOne]
  rw [h1]
  have h2 : expandOne "$or" c ++ [] = expandOne "$or" c := List.append_nil _
  rw [← h2]
  rfl

theorem bind_ok_iff {α β : Type} {x : Except Err α} {f : α → Except Err β} {b : β} :
    (x >>= f) = .ok b ↔ ∃ a, x = .ok a ∧ f a = .ok b := by
  cases x <;> simp [Bind.bind, Except.bind]

theorem sizeOf_pyobj_pos (x : PyObj) : 0 < sizeOf x := by
  cases x <;> simp_arith

theorem sizeOf_pyobj_list_pos (l : List PyObj) : 0 < sizeOf l := by
  cases l <;> simp_arith

theorem mysql_tokens_vstr (s : String) (sql : List String) (params : List PyObj) :
    mysql_predicate_tokens (.vstr s) sql params =
      .ok (sql ++ [mysqlQuoteName s], params) := by
  simp only [mysql_predicate_tokens]

theorem mysql_tokens_field (t nm : String) (sql : List String) (params : List PyObj) :
    mysql_predicate_tokens (.field t nm) sql params =
      .ok (sql ++ ["`" ++ t ++ "`.`" ++ nm ++ "`"], params) := by
  simp only [mysql_predicate_tokens]

theorem mysql_tokens_pred (op : String) (vs : List PyObj) (sql : List String)
    (params : List PyObj) :
    mysql_predicate_tokens (.pred op vs) sql params = mysqlPredCase op vs sql params := by
  simp only [mysql_predicate_tokens]

theorem mysql_tokens_err (e : PyObj) (sql : List String) (params : List PyObj)
    (h : (match e with
          | .vstr _ => False
          | .field _ _ => False
          | .pred _ _ => False
          | _ => True)) :
    mysql_predicate_tokens e sql params = .error .valueError := by
  cases e with
  | vint a => simp only [mysql_predicate_tokens]
  | vnone => simp only [mysql_predicate_tokens]
  | vlist l => simp only [mysql_predicate_tokens]
  | vtuple l => simp only [mysql_predicate_tokens]
  | vdict l => simp only [mysql_predicate_tokens]
  | vstr s => exact absurd h (by simp)
  | field t n => exact absurd h (by simp)
  | pred o w => exact absurd h (by simp)

theorem mysqlLogicLoop_nil (op : String) (sql : List String) (params : List PyObj) :
    mysqlLogicLoop op [] sql params = .ok (sql, params) := by
  simp only [mysqlLogicLoop]

theorem mysqlLogicLoop_cons (op : String) (i : PyObj) (rest : List PyObj)
    (sql : List String) (params : List PyObj) :
    mysqlLogicLoop op (i :: rest) sql params = (do
      let (s, p) ← mysql_predicate_tokens i sql params
      mysqlLogicLoop op rest (s ++ [symbols op]) p) := by
  simp only [mysqlLogicLoop, mysqlBracket, if_neg Bool.false_ne_true]

theorem mysqlPredCase_andor (op : String) (h : op = "$and" ∨ op = "$or")
    (vs : List PyObj) (sql : List String) (params : List PyObj) :
    mysqlPredCase op vs sql params = mysqlAndOrCase op vs sql params := by
  rcases h with h | h <;> subst h <;> simp [mysqlPredCase, logicOperatorTokens]

theorem mysqlPredCase_binary (op : String)
    (hlog : logicOperatorTokens.contains op = true) (hao : ¬(op = "$and" ∨ op = "$or"))
    (vs : List PyObj) (sql : List String) (params : List PyObj) :
    mysqlPredCase op vs sql params = mysqlBinaryCase op vs sql params := by
  simp only [mysqlPredCase, hlog, if_pos rfl, if_neg hao]
  rfl

theorem mysqlPredCase_arith (op : String)
    (hlog : logicOperatorTokens.contains op = false)
    (har : arithmeticOperatorTokens.contains op = true)
    (vs : List PyObj) (sql : List String) (params : List PyObj) :
    mysqlPredCase op vs sql params = mysqlArithCase op vs sql params := by
  simp only [mysqlPredCase, hlog, har]
  rfl

theorem mysqlPredCase_unreg (op : String)
    (hlog : logicOperatorTokens.contains op = false)
    (har : arithmeticOperatorTokens.contains op = false)
    (vs : List PyObj) (sql : List String) (params : List PyObj) :
    mysqlPredCase op vs sql params = .error .operatorUnregisteredError := by
  simp only [mysqlPredCase, hlog, har]
  rfl

theorem mysqlAndOrCase_eq (op : String) (vs : List PyObj) (sql : List String)
    (params : List PyObj) :
    mysqlAndOrCase op vs sql params = (do
      let (s, p) ← mysqlLogicLoop op vs sql params
      match s.isEmpty with
      | true => Except.error .indexError
      | false => Except.ok (s.dropLast, p)) := by
  simp only [mysqlAndOrCase]

theorem mysqlBinaryCase_eqnull (v0 : PyObj) (sql : List String) (params : List PyObj) :
    mysqlBinaryCase "$eq" [v0, .vnone] sql params = (do
      let (s, p) ← mysql_predicate_tokens v0 sql params
      Except.ok (s ++ ["is null"], p)) := by
  simp only [mysqlBinaryCase]
  rfl

theorem mysqlBinaryCase_nenull (v0 : PyObj) (sql : List String) (params : List PyObj) :
    mysqlBinaryCase "$ne" [v0, .vnone] sql params = (do
      let (s, p) ← mysql_predicate_tokens v0 sql params
      Except.ok (s ++ ["is not null"], p)) := by
  simp only [mysqlBinaryCase]
  rfl

theorem mysqlBinaryCase_othernull (op : String) (h1 : op ≠ "$eq") (h2 : op ≠ "$ne")
    (v0 : PyObj) (sql : List String) (params : List PyObj) :
    mysqlBinaryCase op [v0, .vnone] sql params = (do
      let (s, p) ← mysql_predicate_tokens v0 sql params
      Except.ok (s ++ [symbols op, "%s"], p ++ [.vnone])) := by
  simp only [mysqlBinaryCase, if_neg h1, if_neg h2]

theorem mysqlBinaryCase_long (op : String) (v0 v1 v2 : PyObj) (rest : List PyObj)
    (sql : List String) (params : List PyObj) :
    mysqlBinaryCase op (v0 :: v1 :: v2 :: rest) sql params = (do
      let (s, p) ← mysql_predicate_tokens v0 sql params
      Except.ok (s ++ [symbols op, "%s"], p ++ [v1])) := by
  simp only [mysqlBinaryCase]

theorem mysqlBinaryCase_pair (op : String) (v0 v1 : PyObj) (hv1 : v1 ≠ .vnone)
    (sql : List String) (params : List PyObj) :
    mysqlBinaryCase op [v0, v1] sql params = (do
      let (s, p) ← mysql_predicate_tokens v0 sql params
      Except.ok (s ++ [symbols op, "%s"], p ++ [v1])) := by
  cases v1 with
  | vnone => exact absurd rfl hv1
  | _ => simp only [mysqlBinaryCase]

theorem mysqlBinaryCase_single (op : String) (v0 : PyObj) (sql : List String)
    (params : List PyObj) :
    mysqlBinaryCase op [v0] sql params = (do
      let _ ← mysql_predicate_tokens v0 sql params
      Except.error Err.indexError) := by
  simp only [mysqlBinaryCase]

theorem mysqlBinaryCase_nil (op : String) (sql : List String) (params : List PyObj) :
    mysqlBinaryCase op [] sql params = .error .indexError := by
  simp only [mysqlBinaryCase]

theorem mysqlArithCase_pair (op : String) (f v : PyObj) (sql : List String)
    (params : List PyObj) :
    mysqlArithCase op [f, v] sql params = (do
      let (s, p) ← mysql_predicate_tokens f sql params
      Except.ok (s ++ [symbols op, "%s"], p ++ [v])) := by
  simp only [mysqlArithCase]

theorem mysqlArithCase_other (op : String) (vs : List PyObj)
    (h : ∀ f v, vs ≠ [f, v]) (sql : List String) (params : List PyObj) :
    mysqlArithCase op vs sql params = .error .valueError := by
  match vs with
  | [] => simp only [mysqlArithCase]
  | [v0] => simp only [mysqlArithCase]
  | [f, v] => exact absurd rfl (h f v)
  | v0 :: v1 :: v2 :: rest => simp only [mysqlArithCase]

theorem mysql_mono_bound : ∀ n : Nat,
    (∀ (e : PyObj) (sql : List String) (params : List PyObj) res,
        sizeOf e ≤ n → mysql_predicate_tokens e sql params = .ok res →
        ∃ d, res.2 = params ++ d) ∧
    (∀ (op : String) (l : List PyObj) (sql : List String) (params : List PyObj) res,
        sizeOf l ≤ n → mysqlLogicLoop op l sql params = .ok res →
        ∃ d, res.2 = params ++ d) := by
  intro n
  induction n with
  | zero =>
      constructor
      · intro e sql params res hsz
        cases e <;> simp at hsz
      · intro op l sql params res hsz
        cases l <;> simp at hsz
  | succ n ih =>
      constructor
      · intro e sql params res hsz h
        cases e with
        | vstr s =>
            rw [mysql_tokens_vstr] at h
            cases h
            exact ⟨[], by simp⟩
        | field t m =>
            rw [mysql_tokens_field] at h
            cases h
            exact ⟨[], by simp⟩
        | pred op vs =>
            have hvs : sizeOf vs ≤ n := by
              have h2 : sizeOf (PyObj.pred op vs) = 1 + sizeOf op + sizeOf vs := by simp
              have hpos : 0 < sizeOf op := by cases op; simp_arith
              omega
            have hmemv : ∀ v ∈ vs, sizeOf v ≤ n := by
              intro v hv
              have := List.sizeOf_lt_of_mem hv
              omega
            rw [mysql_tokens_pred] at h
            by_cases hlog : logicOperatorTokens.contains op = true
            · by_cases hao : op = "$and" ∨ op = "$or"
              · rw [mysqlPredCase_andor op hao, mysqlAndOrCase_eq, bind_ok_iff] at h
                obtain ⟨⟨s, p⟩, hx, hf⟩ := h
                obtain ⟨d, hd⟩ := ih.2 op vs sql params (s, p) hvs hx
                cases he : s.isEmpty with
                | true =>
                    simp only [he] at hf
                    cases hf
                | false =>
                    simp only [he] at hf
                    cases hf
                    exact ⟨d, hd⟩
              · rw [mysqlPredCase_binary op hlog hao] at h
                match vs, h with
                | [v0, .vnone], h =>
                  have hv0 : sizeOf v0 ≤ n := hmemv v0 (by simp)
                  by_cases h1 : op = "$eq"
                  · subst h1
                    rw [mysqlBinaryCase_eqnull, bind_ok_iff] at h
                    obtain ⟨⟨s, p⟩, hx, hf⟩ := h
                    obtain ⟨d, hd⟩ := ih.1 v0 sql params (s, p) hv0 hx
                    cases hf
                    exact ⟨d, hd⟩
                  · by_cases h2 : op = "$ne"
                    · subst h2
                      rw [mysqlBinaryCase_nenull, bind_ok_iff] at h
                      obtain ⟨⟨s, p⟩, hx, hf⟩ := h
                      obtain ⟨d, hd⟩ := ih.1 v0 sql params (s, p) hv0 hx
                      cases hf
                      exact ⟨d, hd⟩
                    · rw [mysqlBinaryCase_othernull op h1 h2, bind_ok_iff] at h
                      obtain ⟨⟨s, p⟩, hx, hf⟩ := h
                      obtain ⟨d, hd⟩ := ih.1 v0 sql params (s, p) hv0 hx
                      cases hf
                      refine ⟨d ++ [PyObj.vnone], ?_⟩
                      simp only at hd
                      simp [hd]
                | v0 :: v1 :: v2 :: rest, h =>
                  have hv0 : sizeOf v0 ≤ n := hmemv v0 (by simp)
                  rw [mysqlBinaryCase_long, bind_ok_iff] at h
                  obtain ⟨⟨s, p⟩, hx, hf⟩ := h
                  obtain ⟨d, hd⟩ := ih.1 v0 sql params (s, p) hv0 hx
                  cases hf
                  refine ⟨d ++ [v1], ?_⟩
                  simp only at hd
                  simp [hd]
                | [v0, v1], h =>
                  have hv0 : sizeOf v0 ≤ n := hmemv v0 (by simp)
                  by_cases hv1 : v1 = PyObj.vnone
                  · subst hv1
                    by_cases h1 : op = "$eq"
                    · subst h1
                      rw [mysqlBinaryCase_eqnull, bind_ok_iff] at h
                      obtain ⟨⟨s, p⟩, hx, hf⟩ := h
                      obtain ⟨d, hd⟩ := ih.1 v0 sql params (s, p) hv0 hx
                      cases hf
                      exact ⟨d, hd⟩
                    · by_cases h2 : op = "$ne"
                      · subst h2
                        rw [mysqlBinaryCase_nenull, bind_ok_iff] at h
                        obtain ⟨⟨s, p⟩, hx, hf⟩ := h
                        obtain ⟨d, hd⟩ := ih.1 v0 sql params (s, p) hv0 hx
                        cases hf
                        exact ⟨d, hd⟩
                      · rw [mysqlBinaryCase_othernull op h1 h2, bind_ok_iff] at h
                        obtain ⟨⟨s, p⟩, hx, hf⟩ := h
                        obtain ⟨d, hd⟩ := ih.1 v0 sql params (s, p) hv0 hx
                        cases hf
                        refine ⟨d ++ [PyObj.vnone], ?_⟩
                        simp only at hd
                        simp [hd]
                  · rw [mysqlBinaryCase_pair op v0 v1 hv1, bind_ok_iff] at h
                    obtain ⟨⟨s, p⟩, hx, hf⟩ := h
                    obtain ⟨d, hd⟩ := ih.1 v0 sql params (s, p) hv0 hx
                    cases hf
                    refine ⟨d ++ [v1], ?_⟩
                    simp only at hd
                    simp [hd]
                | [v0], h =>
                  rw [mysqlBinaryCase_single, bind_ok_iff] at h
                  obtain ⟨a, hx, hf⟩ := h
                  cases hf
                | [], h =>
                  rw [mysqlBinaryCase_nil] at h
                  cases h
            · rw [Bool.not_eq_true] at hlog
              by_cases har : arithmeticOperatorTokens.contains op = true
              · rw [mysqlPredCase_arith op hlog har] at h
                match vs, h with
                | [f, v], h =>
                  have hf0 : sizeOf f ≤ n := hmemv f (by simp)
                  rw [mysqlArithCase_pair, bind_ok_iff] at h
                  obtain ⟨⟨s, p⟩, hx, hfq⟩ := h
                  obtain ⟨d, hd⟩ := ih.1 f sql params (s, p) hf0 hx
                  cases hfq
                  refine ⟨d ++ [v], ?_⟩
                  simp only at hd
                  simp [hd]
                | [], h => rw [mysqlArithCase_other _ _ (by simp)] at h; cases h
                | [v0], h => rw [mysqlArithCase_other _ _ (by simp)] at h; cases h
                | v0 :: v1 :: v2 :: rest, h =>
                  rw [mysqlArithCase_other _ _ (by simp)] at h
                  cases h
              · rw [Bool.not_eq_true] at har
                rw [mysqlPredCase_unreg op hlog har] at h
                cases h
        | vint a => rw [mysql_tokens_err _ _ _ (by simp)] at h; cases h
        | vnone => rw [mysql_tokens_err _ _ _ (by simp)] at h; cases h
        | vlist l => rw [mysql_tokens_err _ _ _ (by simp)] at h; cases h
        | vtuple l => rw [mysql_tokens_err _ _ _ (by simp)] at h; cases h
        | vdict l => rw [mysql_tokens_err _ _ _ (by simp)] at h; cases h
      · intro op l sql params res hsz h
        cases l with
        | nil =>
            rw [mysqlLogicLoop_nil] at h
            cases h
            exact ⟨[], by simp⟩
        | cons i rest =>
            have hi : sizeOf i ≤ n := by
              have h2 : sizeOf (i :: rest) = 1 + sizeOf i + sizeOf rest := by simp
              have := sizeOf_pyobj_list_pos rest
              omega
            have hrest : sizeOf rest ≤ n := by
              have h2 : sizeOf (i :: rest) = 1 + sizeOf i + sizeOf rest := by simp
              have := sizeOf_pyobj_pos i
              omega
            rw [mysqlLogicLoop_cons, bind_ok_iff] at h
            obtain ⟨⟨s, p⟩, hx, hf⟩ := h
            obtain ⟨d1, hd1⟩ := ih.1 i _ params (s, p) hi hx
            obtain ⟨d2, hd2⟩ := ih.2 op rest _ p res hrest hf
            refine ⟨d1 ++ d2, ?_⟩
            simp only at hd1
            simp [hd2, hd1]

/-- The MySQL predicate compiler only appends to the parameter list. -/
theorem mysql_predicate_tokens_params_mono (e : PyObj) (sql : List String)
    (params : List PyObj) (res : List String × List PyObj)
    (h : mysql_predicate_tokens e sql params = .ok res) :
    ∃ d, res.2 = params ++ d :=
  (mysql_mono_bound (sizeOf e)).1 e sql params res le_rfl h

theorem except_bind_pure {α : Type} (x : Except Err α) :
    (do
      let d ← x
      Except.ok d) = x := by
  cases x <;> rfl

theorem except_ok_bind {α β : Type} (a : α) (f : α → Except Err β) :
    (do
      let d ← Except.ok a
      f d) = f a := rfl

theorem except_error_bind {α β : Type} (e : Err) (f : α → Except Err β) :
    (do
      let d ← Except.error e
      f d) = (.error e : Except Err β) := rfl

theorem except_pair_bind_nil (x : Except Err (List String × List PyObj)) :
    (do
      let (s, p) ← x
      Except.ok (s ++ ([] : List String), p)) = x := by
  cases x with
  | error e => rfl
  | ok v => cases v; simp [except_bind_pure]

theorem query_tokens_limit_split (q : Query) :
    query_tokens q = (do
      let (s, p) ← query_tokens (q.limit none none)
      Except.ok (s ++ queryLimit q.offset q.rows, p)) := by
  simp only [query_tokens, Query.limit, queryLimit]
  by_cases hf : q.filters.isEmpty
  · simp only [hf, if_true]
    cases ht : truthyInt q.rows <;> cases ho : truthyInt q.offset <;>
      simp [ht, ho, truthyInt, except_bind_pure, except_ok_bind]
  · simp only [hf, if_false, Bool.false_eq_true]
    generalize mysql_predicate_tokens (mkPred "$and" q.filters)
      (popStrip (["select"] ++ q.fields.map (fun f => mysql_token f ++ ",")) ++
        ["from", "`" ++ q.table.name ++ "`"] ++ ["where"]) [] = C
    cases C with
    | error e => rfl
    | ok v =>
        cases v with
        | mk s p =>
            cases ht : truthyInt q.rows <;> cases ho : truthyInt q.offset <;>
              simp [ht, ho, truthyInt, except_bind_pure, except_ok_bind]

theorem updateSetLoop_params (t : Table) (kvs : List (String × PyObj)) :
    ∀ (sql : List String) (params : List PyObj) (res : List String × List PyObj),
      updateSetLoop t kvs sql params = .ok res →
      res.2 = params ++ kvs.map Prod.snd := by
  induction kvs with
  | nil =>
      intro sql params res h
      simp only [updateSetLoop] at h
      cases h
      simp
  | cons kv rest ih =>
      intro sql params res h
      obtain ⟨k, v⟩ := kv
      simp only [updateSetLoop] at h
      cases hg : t.get_field k with
      | none => rw [hg] at h; cases h
      | some r =>
          obtain ⟨tb, n⟩ := r
          rw [hg] at h
          have h2 := ih _ _ _ h
          simp [h2]

theorem lookup_append_self (l : List (String × Nat)) (t : String) (v : Nat)
    (h : l.lookup t = none) : (l ++ [(t, v)]).lookup t = some v := by
  induction l with
  | nil => simp [List.lookup]
  | cons p rest ih =>
      obtain ⟨k, w⟩ := p
      cases hk : (t == k) with
      | true => simp [List.lookup, hk] at h
      | false =>
          simp only [List.lookup, hk] at h
          simp only [List.cons_append, List.lookup, hk]
          exact ih h

theorem lookup_none_not_mem (l : List (String × Nat)) (t : String)
    (h : l.lookup t = none) : t ∉ l.map Prod.fst := by
  induction l with
  | nil => simp
  | cons p rest ih =>
      obtain ⟨k, w⟩ := p
      cases hk : (t == k) with
      | true => simp [List.lookup, hk] at h
      | false =>
          simp only [List.lookup, hk] at h
          simp only [List.map_cons, List.mem_cons]
          rintro (h2 | hm)
          · rw [h2] at hk; simp at hk
          · exact ih h hm

/-- Claim C1 (code bug): in Scenario 3 the MySQL compiler emits NO
parentheses around the OR-group — the operand bracket test
`isinstance(i, LogicOperator)` of `mysql_predicate_tokens` is always false
for Predicate operands, so the spec's parenthesization rule (and the
dialect's own test-suite) is contradicted; the PostgreSQL compiler, whose
test reads `i.operator in (AND, OR) and i.operator != expr.operator`,
implements the specified rule and parenthesizes exactly the mixed-operator
logic subgroup. -/
theorem C1_or_group_parenthesization :
    filter userTable [] [q3f1] [] = .ok [q3f1] ∧
    filter userTable [q3f1] [q3f2] [] = .ok [q3f1, q3f2] ∧
    query_sql_params q3 = .ok
      ("select `user`.`id`, `user`.`name`, `user`.`age` from `user` where `user`.`id` > %s and `user`.`id` < %s and `user`.`name` = %s or `user`.`name` = %s",
       [.vint 1, .vint 10, .vstr "tom", .vstr "Tom"]) ∧
    postgresql_predicate_tokens (mkPred "$and" [q3f1, q3f2]) [] [] = .ok
      (["id", ">", "%s", "and", "id", "<", "%s", "and", "(", "name", "=", "%s",
        "or", "name", "=", "%s", ")"],
       [.vint 1, .vint 10, .vstr "tom", .vstr "Tom"]) := by
  refine ⟨rfl, rfl, ?_, by rfl⟩
  simp [query_sql_params, query_tokens, q3, Query.init, userTable, popStrip, mysql_token,
        mkPred, flattenValues, Func.gt, Func.lt, Func.eq, q3f1, q3f2, truthyInt,
        mysql_predicate_tokens, mysqlPredCase, mysqlAndOrCase, mysqlBinaryCase, mysqlArithCase,
        mysqlLogicLoop, mysqlBracket, mysqlQuoteName, splitDots, splitDotsAux,
        logicOperatorTokens, arithmeticOperatorTokens, symbols]
  rfl

/-- Claim C2: a binary `$eq`/`$ne` comparison whose second operand is the
literal `None` compiles, in both dialects, to the fragment
`is null` / `is not null` appended after the left operand with no
parameter added; in particular `encode({"id": None})` compiles to
`` ("`id` is null", []) `` and `encode({"id": {"$ne": None}})` to
`is not null`. -/
theorem C2_null_comparison (op : String) (v0 : PyObj) (sql : List String)
    (params : List PyObj) (h : op = "$eq" ∨ op = "$ne") :
    mysql_predicate_tokens (.pred op [v0, .vnone]) sql params =
      (do
        let (s, p) ← mysql_predicate_tokens v0 sql params
        Except.ok (s ++ [if op = "$eq" then "is null" else "is not null"], p)) ∧
    postgresql_predicate_tokens (.pred op [v0, .vnone]) sql params =
      (do
        let (s, p) ← postgresql_predicate_tokens v0 sql params
        Except.ok (s ++ [if op = "$eq" then "is null" else "is not null"], p)) ∧
    (do
      let e ← encode (.vdict [("id", .vnone)])
      predicate_sql_params e) = .ok ("`id` is null", []) ∧
    (do
      let e ← encode (.vdict [("id", .vdict [("$ne", .vnone)])])
      predicate_sql_params e) = .ok ("`id` is not null", []) := by
  refine ⟨?_, ?_, ?_, ?_⟩
  · rcases h with h | h <;> subst h
    · rw [mysql_tokens_pred, mysqlPredCase_binary "$eq" (by rfl) (by decide),
          mysqlBinaryCase_eqnull]
      simp
    · rw [mysql_tokens_pred, mysqlPredCase_binary "$ne" (by rfl) (by decide),
          mysqlBinaryCase_nenull]
      simp
  · rcases h with h | h <;> subst h <;> rfl
  · rw [encode_vdict_single, encodeDict1_nonop_plain "id" rfl PyObj.vnone rfl]
    simp [finalizeExpress, mkPred, flattenValues, predicate_sql_params, except_ok_bind,
          mysql_tokens_pred, mysqlPredCase, mysqlBinaryCase, mysql_tokens_vstr,
          mysqlQuoteName, splitDots, splitDotsAux, logicOperatorTokens, symbols]
    rfl
  · rw [encode_vdict_single, encodeDict1_nonop_dict "id" rfl [("$ne", PyObj.vnone)] rfl,
        encodeDistrib_cons, encodeDistrib_nil, encode_vdict_single,
        encodeDict1_op "$ne" rfl,
        encodeOpKey_cmp "$ne" (by decide) (by decide) (by decide) (by rfl),
        encodeCmpKey_vlist, vpvList_cons, vpv_eq, vpvList_cons, vpv_eq, vpvList_nil]
    simp [check_predicate, mkPred, flattenValues, finalizeExpress, predicate_sql_params,
          except_ok_bind, mysql_tokens_pred, mysqlPredCase, mysqlBinaryCase,
          mysql_tokens_vstr, mysqlQuoteName, splitDots, splitDotsAux,
          logicOperatorTokens, symbols]
    rfl

/-- Claim C2 witness: the `$eq` instance at `User.id`. -/
theorem C2_null_comparison_witness :
    (("$eq" : String) = "$eq" ∨ ("$eq" : String) = "$ne") ∧
    mysql_predicate_tokens (.pred "$eq" [.field "user" "id", .vnone]) [] [] =
      (do
        let (s, p) ← mysql_predicate_tokens (.field "user" "id") [] []
        Except.ok (s ++ [if ("$eq" : String) = "$eq" then "is null" else "is not null"], p)) :=
  ⟨Or.inl rfl, (C2_null_comparison "$eq" (.field "user" "id") [] [] (Or.inl rfl)).1⟩

/-- Claim C3 (corrected): `dict(encode(d)) == d` holds for dictionaries in
the encoder's own output shape — serializations `predicateDict p` of
Predicates `p` in normal form (`normalPred`), which in particular excludes
an `$and` group with a single child: `encode` collapses
`{"$and": [x]}` to the bare `x`, so such a dictionary does not round-trip
(see the counterexample). -/
theorem C3_round_trip_normalized (p : PyObj) (h : normalPred p = true) :
    encode (predicateDict p) = .ok p :=
  encode_predicateDict_of_normal p h

/-- Claim C3 witness: the normalized two-comparison conjunction
`{"$and": [{"$gt": ["user.id", 1]}, {"$lt": ["user.id", 10]}]}`. -/
theorem C3_round_trip_normalized_witness :
    normalPred (.pred "$and" [.pred "$gt" [.vstr "user.id", .vint 1],
                              .pred "$lt" [.vstr "user.id", .vint 10]]) = true ∧
    encode (predicateDict (.pred "$and" [.pred "$gt" [.vstr "user.id", .vint 1],
                                         .pred "$lt" [.vstr "user.id", .vint 10]])) =
      .ok (.pred "$and" [.pred "$gt" [.vstr "user.id", .vint 1],
                         .pred "$lt" [.vstr "user.id", .vint 10]]) :=
  ⟨rfl, C3_round_trip_normalized _ rfl⟩

/-- Claim C3 counterexample: the dictionary `{"$and": [{"$eq": ["id", 1]}]}`
is the `dict()` serialization of the constructible Predicate
`and_(eq("id", 1))`, its keys are recognized operator tokens in
already-encoded form, yet `encode` returns the bare `$eq` Predicate, whose
`dict()` is not the input dictionary. -/
theorem C3_round_trip_counterexample :
    predicateDict (Func.and_ [Func.eq (.vstr "id") (.vint 1)]) =
      .vdict [("$and", .vlist [.vdict [("$eq", .vlist [.vstr "id", .vint 1])]])] ∧
    encode (.vdict [("$and", .vlist [.vdict [("$eq", .vlist [.vstr "id", .vint 1])]])]) =
      .ok (Func.eq (.vstr "id") (.vint 1)) ∧
    Func.eq (.vstr "id") (.vint 1) ≠ Func.and_ [Func.eq (.vstr "id") (.vint 1)] := by
  refine ⟨?_, ?_, ?_⟩
  · simp [predicateDict, dictValues, Func.and_, Func.eq, mkPred, flattenValues]
  · rw [encode_vdict_single, encodeDict1_op "$and" rfl, encodeOpKey_and,
        encodeAndKey_vlist, encodeList_cons, encode_vdict_single,
        encodeDict1_op "$eq" rfl,
        encodeOpKey_cmp "$eq" (by decide) (by decide) (by decide) (by rfl),
        encodeCmpKey_vlist, vpvList_cons, vpv_eq, vpvList_cons, vpv_eq, vpvList_nil,
        encodeList_nil]
    simp [check_predicate, mkPred, flattenValues, finalizeExpress, except_ok_bind,
          Func.eq]
  · intro hcontra
    simp [Func.eq, Func.and_, mkPred, flattenValues] at hcontra

/-- Claim C4 (corrected): constructing a Predicate over an operand
Predicate with the same operator and more than one value flattens that
operand into the parent — `and(a, and(b, c))` is `and(a, b, c)` and the
two compile identically, and mixed-operator nesting keeps the nested group
— but an operand with the same operator and a single value is kept nested
(`Predicate.__init__` also requires `len(i.values) > 1`; see the
counterexample). -/
theorem C4_flattening (a b c : PyObj) :
    mkPred "$and" [a, mkPred "$and" [b, c]] = mkPred "$and" [a, b, c] ∧
    predicate_sql_params (Func.and_ [a, Func.and_ [b, c]]) =
      predicate_sql_params (Func.and_ [a, b, c]) ∧
    (∃ tail, mkPred "$or" [mkPred "$and" [a, b], c] =
      .pred "$or" (mkPred "$and" [a, b] :: tail)) := by
  refine ⟨mkPred_and_assoc a b c, ?_, mkPred_mixed_keeps_group a b c⟩
  show predicate_sql_params (mkPred "$and" [a, mkPred "$and" [b, c]]) = _
  rw [mkPred_and_assoc]
  rfl

/-- Claim C4 counterexample: an operand carrying the parent's operator but
only one value is not flattened into the parent. -/
theorem C4_flattening_counterexample :
    mkPred "$and" [.vstr "a", mkPred "$and" [.vstr "x"]] =
      .pred "$and" [.vstr "a", .pred "$and" [.vstr "x"]] ∧
    PyObj.pred "$and" [.vstr "a", .pred "$and" [.vstr "x"]] ≠
      .pred "$and" [.vstr "a", .vstr "x"] := by
  constructor
  · rfl
  · intro hcontra
    simp at hcontra

/-- Claim C5: the operator registry is canonical.  A successful
`Operator(t)` interns `t`, so calling again returns the identical instance
with the registry unchanged; a registry keyed without duplicates stays
so (at most one instance per token); and a token without the reserved
`$` marker that is not already interned raises `ValueError`. -/
theorem C5_operator_interning (r : OperatorRegistry) (t : String) :
    (∀ r1 i, OperatorCall r t = .ok (r1, i) →
      OperatorCall r1 t = .ok (r1, i)) ∧
    (∀ r1 i, OperatorCall r t = .ok (r1, i) →
      (r.ops.map Prod.fst).Nodup → (r1.ops.map Prod.fst).Nodup) ∧
    (startsWithDollar t = false → r.ops.lookup t = none →
      OperatorCall r t = .error .valueError) := by
  refine ⟨?_, ?_, ?_⟩
  · intro r1 i h
    rw [OperatorCall] at h
    cases hl : r.ops.lookup t with
    | some j =>
        rw [hl] at h
        cases h
        rw [OperatorCall, hl]
    | none =>
        rw [hl] at h
        by_cases hd : startsWithDollar t
        · rw [if_pos hd] at h
          cases h
          rw [OperatorCall]
          rw [lookup_append_self r.ops t r.next hl]
        · rw [if_neg hd] at h
          cases h
  · intro r1 i h hnd
    rw [OperatorCall] at h
    cases hl : r.ops.lookup t with
    | some j =>
        rw [hl] at h
        cases h
        exact hnd
    | none =>
        rw [hl] at h
        by_cases hd : startsWithDollar t
        · rw [if_pos hd] at h
          cases h
          have hnm := lookup_none_not_mem r.ops t hl
          simp [List.nodup_append, hnd]
          intro a ha
          exact hnm (List.mem_map_of_mem Prod.fst ha)
        · rw [if_neg hd] at h
          cases h
  · intro hd hl
    rw [OperatorCall, hl, if_neg (by simp [hd])]

/-- Claim C5 witness: interning `$like` into the empty registry, repeating
the call, and the rejection of the unmarked token `like`. -/
theorem C5_operator_interning_witness :
    OperatorCall ⟨[], 0⟩ "$like" = .ok (⟨[("$like", 0)], 1⟩, 0) ∧
    OperatorCall ⟨[("$like", 0)], 1⟩ "$like" = .ok (⟨[("$like", 0)], 1⟩, 0) ∧
    OperatorCall ⟨[], 0⟩ "like" = .error .valueError :=
  ⟨rfl, (C5_operator_interning ⟨[], 0⟩ "$like").1 _ 0 rfl,
    (C5_operator_interning ⟨[], 0⟩ "like").2.2 rfl rfl⟩

/-- Claim C6: `Update(User).filter(User.id == 1).update(name="x")`
compiles to `` "update `user` set `user`.`name` = %s where `user`.`id` = %s" ``
with parameters `("x", 1)`; in general, in any successful update
compilation the SET values — the `value` mapping's entries in insertion
order — form a prefix of the parameter list, so every SET value precedes
every filter value. -/
theorem C6_update_set_params (u : Update) (res : String × List PyObj)
    (h : update_sql_params u = .ok res) :
    (∃ d, res.2 = u.value.map Prod.snd ++ d) ∧
    update_sql_params u6 =
      .ok ("update `user` set `user`.`name` = %s where `user`.`id` = %s",
           [.vstr "x", .vint 1]) := by
  constructor
  · simp only [update_sql_params] at h
    rw [bind_ok_iff] at h
    obtain ⟨⟨s1, p1⟩, h1, h2⟩ := h
    have hp1 : p1 = [] ++ u.value.map Prod.snd :=
      updateSetLoop_params u.table u.value _ [] (s1, p1) h1
    by_cases hf : u.filters.isEmpty
    · rw [if_pos hf] at h2
      simp only [except_ok_bind, pure] at h2
      cases h2
      exact ⟨[], by simp [hp1]⟩
    · rw [if_neg hf] at h2
      rw [bind_ok_iff] at h2
      obtain ⟨⟨s2, p2⟩, h3, h4⟩ := h2
      obtain ⟨d, hd⟩ := mysql_predicate_tokens_params_mono _ _ _ _ h3
      cases h4
      refine ⟨d, ?_⟩
      simp only at hd
      simp [hd, hp1]
  · simp [update_sql_params, u6, userTable, updateSetLoop, Table.get_field,
          mysql_token, popStrip, mkPred, flattenValues, Func.eq, except_ok_bind,
          mysql_predicate_tokens, mysqlPredCase, mysqlAndOrCase, mysqlBinaryCase,
          mysqlArithCase, mysqlLogicLoop, mysqlBracket, mysqlQuoteName, splitDots,
          splitDotsAux, logicOperatorTokens, arithmeticOperatorTokens, symbols]
    rfl

/-- Claim C6 witness: the Scenario-6 update itself. -/
theorem C6_update_set_params_witness :
    update_sql_params u6 =
      .ok ("update `user` set `user`.`name` = %s where `user`.`id` = %s",
           [.vstr "x", .vint 1]) ∧
    (∃ d, [PyObj.vstr "x", PyObj.vint 1] = u6.value.map Prod.snd ++ d) := by
  have hc : update_sql_params u6 =
      .ok ("update `user` set `user`.`name` = %s where `user`.`id` = %s",
           [.vstr "x", .vint 1]) := by
    simp [update_sql_params, u6, userTable, updateSetLoop, Table.get_field,
          mysql_token, popStrip, mkPred, flattenValues, Func.eq, except_ok_bind,
          mysql_predicate_tokens, mysqlPredCase, mysqlAndOrCase, mysqlBinaryCase,
          mysqlArithCase, mysqlLogicLoop, mysqlBracket, mysqlQuoteName, splitDots,
          splitDotsAux, logicOperatorTokens, arithmeticOperatorTokens, symbols]
    rfl
  exact ⟨hc, (C6_update_set_params u6 _ hc).1⟩

/-- Claim C7: builder calls that resolve a field name — `select(name)`,
`filter(name=value)` and `order_by(name=flag)` — raise
`FieldNotFoundError` at the builder call itself for a name absent from the
table metadata, and never raise for a declared name (the failure is not
deferred to compile time: `Table.get_field` is consulted inside the
builder). -/
theorem C7_unknown_field (t : Table) (s : String) (h : t.get_field s = none) :
    select t [.nameArg s] = .error .fieldNotFoundError ∧
    (∀ v, filter t [] [] [(s, v)] = .error .fieldNotFoundError) ∧
    (∀ b, order_by t [] [] [(s, b)] = .error .fieldNotFoundError) ∧
    (∀ s2 tb n, t.get_field s2 = some (tb, n) →
      select t [.nameArg s2] = .ok [QField.proxy tb n] ∧
      (∀ v, filter t [] [] [(s2, v)] = .ok [Func.eq (.field tb n) v]) ∧
      (∀ b, order_by t [] [] [(s2, b)] = .ok [(QField.proxy tb n, b)])) := by
  refine ⟨?_, ?_, ?_, ?_⟩
  · simp [select, h]
  · intro v
    simp [filter, filterKwargsLoop, h, except_error_bind]
  · intro b
    simp [order_by, order_byKwargsLoop, h, except_error_bind]
  · intro s2 tb n h2
    refine ⟨?_, fun v => ?_, fun b => ?_⟩
    · simp [select, h2, except_ok_bind]
    · simp [filter, filterKwargsLoop, h2, except_ok_bind]
    · simp [order_by, order_byKwargsLoop, h2, except_ok_bind]

/-- Claim C7 witness: on the `user` table, the unknown name `nope` raises
and the declared name `id` resolves. -/
theorem C7_unknown_field_witness :
    userTable.get_field "nope" = none ∧
    select userTable [.nameArg "nope"] = .error .fieldNotFoundError ∧
    select userTable [.nameArg "id"] = .ok [QField.proxy "user" "id"] :=
  ⟨rfl, (C7_unknown_field userTable "nope" rfl).1,
    ((C7_unknown_field userTable "nope" rfl).2.2.2 "id" "user" "id" rfl).1⟩

/-- Claim C8 (code bug): the autoincrement registration loop of
`ModelMetaclass.__new__` rejects a second autoincrement field at
class-definition time with a plain `ValueError`, not with the
`AutoIncrementFieldExists` class that ormantic/errors.py declares and the
repository's own test expects; the loop can never produce
`AutoIncrementFieldExists`, and a single autoincrement field is accepted. -/
theorem C8_autoincrement_plain_value_error :
    modelIncField [⟨"id", true, true⟩, ⟨"uid", false, true⟩] = .error .valueError ∧
    (∀ fs, modelIncField fs ≠ .error .autoIncrementFieldExists) ∧
    modelIncField [⟨"id", true, true⟩, ⟨"name", false, false⟩] = .ok (some "id") := by
  refine ⟨rfl, ?_, rfl⟩
  intro fs
  suffices hgen : ∀ (fs2 : List FieldSpec) (inc : Option String),
      modelIncFieldLoop inc fs2 ≠ .error .autoIncrementFieldExists from
    hgen fs none
  intro fs2
  induction fs2 with
  | nil =>
      intro inc h
      cases h
  | cons f rest ih =>
      intro inc h
      simp only [modelIncFieldLoop] at h
      cases ha : f.autoincrement with
      | false =>
          rw [ha] at h
          simp only [Bool.false_eq_true, if_false] at h
          exact ih inc h
      | true =>
          rw [ha] at h
          simp only [if_true] at h
          cases inc with
          | none => exact ih _ h
          | some prev => exact absurd (Except.error.inj h) (by decide)

/-- Claim C9 (code bug): the ten declared negation partners are exactly
those of the `negative` table (`gt↔lte`, `gte↔lt`, `eq↔ne`, `in↔nin`,
`and↔or`), but for an operator with no declared negation `negatived`
returns `None` (`negative.get`) — it raises nothing, and no
`NoNegationError` class exists anywhere in the code. -/
theorem C9_negation_partners :
    negatived "$gt" = some "$lte" ∧ negatived "$gte" = some "$lt" ∧
    negatived "$lt" = some "$gte" ∧ negatived "$lte" = some "$gt" ∧
    negatived "$eq" = some "$ne" ∧ negatived "$ne" = some "$eq" ∧
    negatived "$in" = some "$nin" ∧ negatived "$nin" = some "$in" ∧
    negatived "$and" = some "$or" ∧ negatived "$or" = some "$and" ∧
    negatived "$add" = none ∧ negatived "$like" = none ∧
    negatived "$regex" = none :=
  ⟨rfl, rfl, rfl, rfl, rfl, rfl, rfl, rfl, rfl, rfl, rfl, rfl, rfl⟩

/-- Claim C10: the LIMIT section of a compiled query is emitted exactly
when the `rows` slot is truthy (`None` and `0` are falsy).  With falsy
`rows` the compilation equals that of the same query with both slots
cleared — the offset is silently dropped; with truthy `rows` and falsy
`offset` the tokens `limit <rows>` are appended; with both truthy,
`limit <offset>, <rows>`.  Hence `first()` compiles to `... limit 1` and
`all()` compiles with no LIMIT clause. -/
theorem C10_limit_emission (q : Query) :
    (truthyInt q.rows = false → query_tokens q = query_tokens (q.limit none none)) ∧
    (truthyInt q.rows = true → truthyInt q.offset = false →
      query_tokens q = (do
        let (s, p) ← query_tokens (q.limit none none)
        Except.ok (s ++ ["limit", toString (q.rows.getD 0)], p))) ∧
    (truthyInt q.rows = true → truthyInt q.offset = true →
      query_tokens q = (do
        let (s, p) ← query_tokens (q.limit none none)
        Except.ok (s ++ ["limit", toString (q.offset.getD 0) ++ ", " ++
          toString (q.rows.getD 0)], p))) ∧
    query_sql_params (Query.first (Query.init userTable)) =
      .ok ("select `user`.`id`, `user`.`name`, `user`.`age` from `user` limit 1", []) ∧
    query_sql_params (Query.all (Query.init userTable)) =
      .ok ("select `user`.`id`, `user`.`name`, `user`.`age` from `user`", []) ∧
    query_sql_params ((Query.init userTable).limit (some 5) (some 10)) =
      .ok ("select `user`.`id`, `user`.`name`, `user`.`age` from `user` limit 5, 10", []) := by
  refine ⟨?_, ?_, ?_, by rfl, by rfl, by rfl⟩
  · intro h
    rw [query_tokens_limit_split q]
    simp only [queryLimit, h, Bool.false_eq_true, if_false]
    exact except_pair_bind_nil _
  · intro h ho
    rw [query_tokens_limit_split q]
    simp only [queryLimit, h, ho, Bool.false_eq_true, if_true, if_false]
  · intro h ho
    rw [query_tokens_limit_split q]
    simp only [queryLimit, h, ho, if_true]

/-- Claim C10 witness: a query with an offset but cleared rows compiles
as if both slots were cleared. -/
theorem C10_limit_emission_witness :
    truthyInt ((Query.init userTable).limit (some 7) none).rows = false ∧
    query_tokens ((Query.init userTable).limit (some 7) none) =
      query_tokens (((Query.init userTable).limit (some 7) none).limit none none) :=
  ⟨rfl, (C10_limit_emission ((Query.init userTable).limit (some 7) none)).1 rfl⟩
